import Mathlib

/-!
Verification of the Zirconium (Zr) front-end: a shallow embedding of the
lexer (`src/src/Lexer.ts`, modern variant), the text stream
(`src/unnamed/part_003`), the grammar tables (`src/unnamed/part_002`) and
the AST node factories / utilities (`src/unnamed/part_001`), together with
theorems settling the frozen claims about spans, flags, token invariants
and parent wiring.

Recursive scanners are written with an explicit fuel argument (structural
recursion) so that every definition is executable by the kernel; the
public wrappers instantiate the fuel with the number of unread characters,
which each loop consumes at least one of per iteration.  All span
theorems are proved for every fuel value, so they cover the wrappers.
-/

namespace Zr

/-! ## Text stream (`ZrTextStream`, src/unnamed/part_003)

The stream is a read-only cursor: `peek k` returns the byte at `ptr + k`
without moving, `next` returns the byte at `ptr` and advances, `hasNext`
is `size > ptr`, `getPtr` exposes the pointer (used for token spans). -/

structure ZrTextStream where
  source : List Char
  ptr : Nat
deriving DecidableEq, Repr

def ZrTextStream.hasNext (s : ZrTextStream) : Bool :=
  decide (s.ptr < s.source.length)

def ZrTextStream.peek (s : ZrTextStream) : Option Char :=
  s.source.get? s.ptr

def ZrTextStream.peekAt (s : ZrTextStream) (off : Nat) : Option Char :=
  s.source.get? (s.ptr + off)

def ZrTextStream.advance (s : ZrTextStream) (n : Nat) : ZrTextStream :=
  { s with ptr := s.ptr + n }

def ZrTextStream.getPtr (s : ZrTextStream) : Nat := s.ptr

/-! ## Grammar tables (src/unnamed/part_002) -/

def Grammar.Operators : List Char := ['&', '|', '=', '>', '<', '-', '+', '/', '*', '!']

def Grammar.EndOfStatement : List Char := [';', '\n']

def Grammar.Punctuation : List Char := ['(', ')', ',', '{', '}', '[', ']', '.', ':', '\\']

def Grammar.BooleanLiterals : List String := ["true", "false"]

def Grammar.Keywords : List String := ["if", "else", "for", "in", "function"]

/-! ## Character predicates (the lexer's `is*` lambdas; Lua character
classes `%d`, `%s`, `%w` with ASCII semantics) -/

def luaIsSpace (c : Char) : Bool :=
  c = ' ' || c = '\t' || c = '\n' || c = '\r' || c = '\x0b' || c = '\x0c'

def isNumericChar (c : Char) : Bool := c.isDigit

def isSpecialChar (c : Char) : Bool := Grammar.Punctuation.contains c

def isNotNewlineChar (c : Char) : Bool := c != '\n'

def isNotEndOfStatementChar (c : Char) : Bool := c != '\n' && c != ';'

def isKeywordStr (s : String) : Bool := Grammar.Keywords.contains s

def isWhitespaceChar (c : Char) : Bool := luaIsSpace c && c != '\n'

def isIdChar (c : Char) : Bool := c.isAlphanum || c = '_'

def isOptionIdChar (c : Char) : Bool := isIdChar c || c = '-'

/-! ## Token flags

Modelled from the spec: the `ZrTokenFlag` bitset lives in the Tokens
module, which is not under src/; the spec lists `None=0`,
`UnterminatedString`, `Interpolated`, `Label`, `FunctionName` as bitset
members, so we assign them distinct bits. -/

def flagUnterminatedString : Nat := 1

def flagInterpolated : Nat := 2

def flagLabel : Nat := 4

def flagFunctionName : Nat := 8

/-! ## Tokens -/

inductive ZrTokenKind
  | String
  | InterpolatedString
  | Number
  | Boolean
  | Keyword
  | Identifier
  | PropertyAccess
  | Option
  | Operator
  | Special
  | EndOfStatement
  | Whitespace
  | Comment
deriving DecidableEq, Repr

/-- A token; the kind-specific payload fields default to empty values for
kinds that do not carry them (matching the TS objects, where absent fields
are `undefined` — in particular `closed` is `none` when the constructing
literal did not include the field).  `varNames` is the TS field
`variables` of `InterpolatedStringToken` (renamed because `variables` is a
reserved command name); `prefixStr` is the TS field `prefix` of
`OptionToken`. -/
structure Token where
  kind : ZrTokenKind
  value : String := ""
  startPos : Nat := 0
  endPos : Nat := 0
  flags : Nat := 0
  values : List String := []
  varNames : List String := []
  properties : List String := []
  quotes : Option Char := none
  closed : Option Bool := none
  prefixStr : Option String := none
  rawText : String := ""
  boolValue : Bool := false
deriving DecidableEq, Repr

def Token.hasFlag (t : Token) (f : Nat) : Bool := decide (t.flags &&& f ≠ 0)

/-! ## `readWhile` (stateful condition, as `readNumber` closes over a
mutable `isDecimal` flag) -/

def readWhileAuxF {σ : Type} : Nat → (σ → Char → Bool × σ) → σ → ZrTextStream → List Char × ZrTextStream
  | 0, _, _, s => ([], s)
  | Nat.succ fuel, cond, st, s =>
    if h : s.ptr < s.source.length then
      let c := s.source.get ⟨s.ptr, h⟩
      let bs := cond st c
      if bs.1 then
        let r := readWhileAuxF fuel cond bs.2 { s with ptr := s.ptr + 1 }
        (c :: r.1, r.2)
      else ([], s)
    else ([], s)

def readWhileAux {σ : Type} (cond : σ → Char → Bool × σ) (st : σ) (s : ZrTextStream) :
    List Char × ZrTextStream :=
  readWhileAuxF (s.source.length - s.ptr) cond st s

def readWhile (cond : Char → Bool) (s : ZrTextStream) : List Char × ZrTextStream :=
  readWhileAux (fun st c => (cond c, st)) () s

theorem readWhileAuxF_source {σ : Type} (fuel : Nat) (cond : σ → Char → Bool × σ)
    (st : σ) (s : ZrTextStream) :
    (readWhileAuxF fuel cond st s).2.source = s.source := by
  induction fuel generalizing st s with
  | zero => rfl
  | succ n ih =>
    simp only [readWhileAuxF]
    split
    · split
      · exact ih _ _
      · rfl
    · rfl

theorem readWhileAuxF_ptr {σ : Type} (fuel : Nat) (cond : σ → Char → Bool × σ)
    (st : σ) (s : ZrTextStream) :
    (readWhileAuxF fuel cond st s).2.ptr = s.ptr + (readWhileAuxF fuel cond st s).1.length := by
  induction fuel generalizing st s with
  | zero => rfl
  | succ n ih =>
    simp only [readWhileAuxF]
    split
    · split
      · next h _ =>
        have h2 := ih (cond st (s.source.get ⟨s.ptr, h⟩)).2 { s with ptr := s.ptr + 1 }
        simp only [List.length_cons]
        simp only at h2
        omega
      · rfl
    · rfl

theorem readWhileAuxF_ptr_ge {σ : Type} (fuel : Nat) (cond : σ → Char → Bool × σ)
    (st : σ) (s : ZrTextStream) :
    s.ptr ≤ (readWhileAuxF fuel cond st s).2.ptr := by
  rw [readWhileAuxF_ptr]
  omega

theorem readWhileAuxF_ptr_le {σ : Type} (fuel : Nat) (cond : σ → Char → Bool × σ)
    (st : σ) (s : ZrTextStream) (h : s.ptr ≤ s.source.length) :
    (readWhileAuxF fuel cond st s).2.ptr ≤ s.source.length := by
  induction fuel generalizing st s with
  | zero => exact h
  | succ n ih =>
    simp only [readWhileAuxF]
    split
    · split
      · next hlt _ =>
        have h2 := ih (cond st (s.source.get ⟨s.ptr, hlt⟩)).2 { s with ptr := s.ptr + 1 }
          (by simp; omega)
        simpa using h2
      · exact h
    · exact h

theorem readWhileAuxF_progress {σ : Type} (fuel : Nat) (cond : σ → Char → Bool × σ)
    (st : σ) (s : ZrTextStream) (h : s.ptr < s.source.length)
    (hc : (cond st (s.source.get ⟨s.ptr, h⟩)).1 = true) (hf : 1 ≤ fuel) :
    s.ptr + 1 ≤ (readWhileAuxF fuel cond st s).2.ptr := by
  cases fuel with
  | zero => omega
  | succ n =>
    simp only [readWhileAuxF, dif_pos h, hc, if_true]
    have h2 := readWhileAuxF_ptr_ge (σ := σ) n cond (cond st (s.source.get ⟨s.ptr, h⟩)).2
      { s with ptr := s.ptr + 1 }
    simpa using h2

/-- At the stopping point of a (state-independent) `readWhile`, the
condition fails on the next character, provided the fuel covered the rest
of the stream. -/
theorem readWhileAuxF_stop {σ : Type} (fuel : Nat) (cond : Char → Bool) (st : σ)
    (s : ZrTextStream) (hfuel : s.source.length - s.ptr ≤ fuel) (c : Char)
    (hc : s.source.get? (readWhileAuxF fuel (fun st c => (cond c, st)) st s).2.ptr = some c) :
    cond c = false := by
  induction fuel generalizing st s with
  | zero =>
    have hge : s.source.length ≤ s.ptr := by omega
    simp only [readWhileAuxF] at hc
    rw [List.get?_eq_none.mpr hge] at hc
    exact absurd hc (by simp)
  | succ n ih =>
    simp only [readWhileAuxF] at hc
    by_cases h : s.ptr < s.source.length
    · simp only [dif_pos h] at hc
      by_cases hcnd : cond (s.source.get ⟨s.ptr, h⟩) = true
      · simp only [hcnd, if_pos] at hc
        exact ih st { s with ptr := s.ptr + 1 } (by simp; omega) hc
      · rw [if_neg hcnd] at hc
        rw [List.get?_eq_get h] at hc
        have hceq := Option.some_injective _ hc
        rw [← hceq]
        simpa using hcnd
    · simp only [dif_neg h] at hc
      rw [List.get?_eq_none.mpr (by omega)] at hc
      exact absurd hc (by simp)

theorem readWhile_source (cond : Char → Bool) (s : ZrTextStream) :
    (readWhile cond s).2.source = s.source :=
  readWhileAuxF_source ..

theorem readWhile_ptr (cond : Char → Bool) (s : ZrTextStream) :
    (readWhile cond s).2.ptr = s.ptr + (readWhile cond s).1.length :=
  readWhileAuxF_ptr ..

theorem readWhile_ptr_ge (cond : Char → Bool) (s : ZrTextStream) :
    s.ptr ≤ (readWhile cond s).2.ptr :=
  readWhileAuxF_ptr_ge ..

theorem readWhile_ptr_le (cond : Char → Bool) (s : ZrTextStream)
    (h : s.ptr ≤ s.source.length) :
    (readWhile cond s).2.ptr ≤ s.source.length :=
  readWhileAuxF_ptr_le _ _ _ _ h

theorem readWhile_stop (cond : Char → Bool) (s : ZrTextStream) (c : Char)
    (hc : s.source.get? (readWhile cond s).2.ptr = some c) :
    cond c = false :=
  readWhileAuxF_stop _ cond _ s (Nat.le_refl _) c hc

theorem readWhile_progress (cond : Char → Bool) (s : ZrTextStream)
    (h : s.ptr < s.source.length) (hc : cond (s.source.get ⟨s.ptr, h⟩) = true) :
    s.ptr + 1 ≤ (readWhile cond s).2.ptr := by
  exact readWhileAuxF_progress _ _ _ _ h (by simpa using hc) (by omega)

/-- If the head character fails the condition (or the stream is done),
`readWhile` consumes nothing. -/
theorem readWhile_head_false (cond : Char → Bool) (s : ZrTextStream) (c : Char)
    (hc : s.source.get? s.ptr = some c) (hcond : cond c = false) :
    readWhile cond s = ([], s) := by
  have hlt : s.ptr < s.source.length := by
    by_contra hge
    rw [List.get?_eq_none.mpr (by omega)] at hc
    exact absurd hc (by simp)
  have hget : s.source.get ⟨s.ptr, hlt⟩ = c := by
    rw [List.get?_eq_get hlt] at hc
    exact Option.some_injective _ hc
  unfold readWhile readWhileAux
  have hfuel : s.source.length - s.ptr = (s.source.length - s.ptr - 1) + 1 := by omega
  rw [hfuel]
  simp only [readWhileAuxF, dif_pos hlt, hget, hcond]
  simp

/-! ## Long-string scanning (`parseLongString`): quoted strings with `$id`
interpolation splitting, backslash escapes and a `closed` result -/

def finishChunks (src : List String) (str : List Char) : List String :=
  if str.isEmpty then src else src ++ [String.mk str]

def parseLongStringLoopF : Nat → Char → List Char → List String → List String → Bool →
    ZrTextStream → (List String × List String × Bool) × ZrTextStream
  | 0, _, str, src, vars, _, s => ((finishChunks src str, vars, false), s)
  | Nat.succ fuel, quote, str, src, vars, escaped, s =>
    if h : s.ptr < s.source.length then
      let c := s.source.get ⟨s.ptr, h⟩
      let s1 : ZrTextStream := { s with ptr := s.ptr + 1 }
      if escaped then
        parseLongStringLoopF fuel quote (str ++ [c]) src vars false s1
      else if c = '\\' then
        parseLongStringLoopF fuel quote (str ++ [c]) src vars true s1
      else if c = quote then
        ((finishChunks src str, vars, true), s1)
      else if c = '$' then
        let r := readWhile isIdChar s1
        parseLongStringLoopF fuel quote [] (src ++ [String.mk str]) (vars ++ [String.mk r.1])
          false r.2
      else
        parseLongStringLoopF fuel quote (str ++ [c]) src vars false s1
    else ((finishChunks src str, vars, false), s)

/-- `parseLongString` eats the opening quote and loops; the fuel equals the
number of unread characters, of which every iteration consumes at least
one. -/
def parseLongString (quote : Char) (s : ZrTextStream) :
    (List String × List String × Bool) × ZrTextStream :=
  parseLongStringLoopF (s.source.length - s.ptr) quote [] [] [] false { s with ptr := s.ptr + 1 }

/-- Modelled from the spec: `joinInterpolatedString` (the Tokens module is
not under src/) re-interleaves the text chunks with `$name` variable
references to recover the raw interpolated text. -/
def joinInterpolatedString : List String → List String → String
  | [], xs => xs.foldl (fun acc x => acc ++ "$" ++ x) ""
  | v :: vs, xs =>
    match xs with
    | [] => v ++ joinInterpolatedString vs []
    | x :: xs' => v ++ "$" ++ x ++ joinInterpolatedString vs xs'

/-! ## Token readers -/

def readStringToken (startCharacter : Char) (s : ZrTextStream) : Token × ZrTextStream :=
  let startPos := s.getPtr
  let r := parseLongString startCharacter s
  let endPos := r.2.getPtr
  if r.1.2.1.length = 0 then
    ({ kind := ZrTokenKind.String, value := String.intercalate " " r.1.1,
       startPos := startPos, closed := some r.1.2.2,
       flags := if r.1.2.2 then 0 else flagUnterminatedString,
       endPos := endPos, quotes := some startCharacter }, r.2)
  else
    ({ kind := ZrTokenKind.InterpolatedString, values := r.1.1,
       value := joinInterpolatedString r.1.1 r.1.2.1, varNames := r.1.2.1,
       startPos := startPos,
       flags := (if r.1.2.2 then 0 else flagUnterminatedString) ||| flagInterpolated,
       endPos := endPos, quotes := some startCharacter }, r.2)

/-- The stateful condition of `readNumber`: at most one decimal point. -/
def numCond : Bool → Char → Bool × Bool := fun isDecimal c =>
  if c = '.' then (if isDecimal then (false, isDecimal) else (true, true))
  else (isNumericChar c, isDecimal)

def readNumber (s : ZrTextStream) : Token × ZrTextStream :=
  let r := readWhileAux numCond false s
  ({ kind := ZrTokenKind.Number, value := String.mk r.1, startPos := s.getPtr, flags := 0,
     endPos := r.2.getPtr - 1, rawText := String.mk r.1 }, r.2)

def readPropsLoopF : Nat → ZrTextStream → List (List Char) → List (List Char) × ZrTextStream
  | 0, s, acc => (acc, s)
  | Nat.succ fuel, s, acc =>
    if h : s.ptr < s.source.length then
      if s.source.get ⟨s.ptr, h⟩ = '.' then
        let r := readWhile isIdChar { s with ptr := s.ptr + 1 }
        readPropsLoopF fuel r.2 (acc ++ [r.1])
      else (acc, s)
    else (acc, s)

def readVariableToken (s : ZrTextStream) : Token × ZrTextStream :=
  let startPos := s.getPtr
  let rid := readWhile isIdChar { s with ptr := s.ptr + 1 }
  let rprops := readPropsLoopF (rid.2.source.length - rid.2.ptr) rid.2 []
  let endPos := rprops.2.getPtr - 1
  if rprops.1.length > 0 then
    ({ kind := ZrTokenKind.PropertyAccess, startPos := startPos, endPos := endPos, flags := 0,
       properties := rprops.1.map String.mk, value := String.mk rid.1 }, rprops.2)
  else
    ({ kind := ZrTokenKind.Identifier, startPos := startPos, flags := 0, endPos := endPos,
       value := String.mk rid.1 }, rprops.2)

def readOption (pre : String) (s : ZrTextStream) : Token × ZrTextStream :=
  let r := readWhile isOptionIdChar s
  ({ kind := ZrTokenKind.Option, value := String.mk r.1, flags := 0, startPos := s.getPtr,
     endPos := r.2.getPtr - 1, prefixStr := some pre }, r.2)

/-! ## Lexer state -/

structure LexerOptions where
  ParseCommentsAsTokens : Bool := false
  ParseWhitespaceAsTokens : Bool := false
  CommandNames : List String := []
deriving DecidableEq, Repr

structure ZrLexer where
  stream : ZrTextStream
  options : LexerOptions := {}
  previousTokens : List Token := []
  currentToken : Option Token := none
deriving DecidableEq, Repr

/-- Integer-indexed list access: TS `array[i]` is `undefined` for negative
indices. -/
def getTokI (l : List Token) (i : Int) : Option Token :=
  if i < 0 then none else l.get? i.toNat

/-- `ZrLexer.prev(offset)`: `previousTokens[previousTokens.size() - offset]`. -/
def zrPrev (lex : ZrLexer) (offset : Nat) : Option Token :=
  getTokI lex.previousTokens ((lex.previousTokens.length : Int) - (offset : Int))

/-- The loop of `prevSkipWhitespace` (offset 1): indices from
`size - 1` down to `1` — index `0` is never inspected (`i > 0` guard). -/
def prevSkipWsIdx (toks : List Token) : Nat → Option Nat
  | 0 => none
  | Nat.succ i =>
    match toks.get? (i + 1) with
    | some t => if t.kind = ZrTokenKind.Whitespace then prevSkipWsIdx toks i else some (i + 1)
    | none => prevSkipWsIdx toks i

/-- `prev.flags |= Label` applied through the alias into `previousTokens`. -/
def setLabelFlag (toks : List Token) : List Token :=
  match prevSkipWsIdx toks (toks.length - 1) with
  | some j =>
    match toks.get? j with
    | some t => toks.set j { t with flags := t.flags ||| flagLabel }
    | none => toks
  | none => toks

def litCond (c : Char) : Bool :=
  isNotEndOfStatementChar c && !isWhitespaceChar c && !isSpecialChar c &&
    c != '"' && c != '\'' && c != '\n'

def barewordStringToken (startPos endPos : Nat) (literal : String) : Token :=
  { kind := ZrTokenKind.String, startPos := startPos, endPos := endPos,
    closed := some true, flags := 0, value := literal }

/-- `readLiteralString`: barewords classify as keyword / boolean /
identifier-after-`function` (looking back two tokens) / plain string. -/
def readLiteralString (lex : ZrLexer) : Token × ZrTextStream :=
  let s := lex.stream
  let r := readWhile litCond s
  let literal := String.mk r.1
  let startPos := s.getPtr
  let endPos := r.2.getPtr - 1
  if isKeywordStr literal then
    ({ kind := ZrTokenKind.Keyword, startPos := startPos, endPos := endPos, flags := 0,
       value := literal }, r.2)
  else if Grammar.BooleanLiterals.contains literal then
    ({ kind := ZrTokenKind.Boolean, startPos := startPos, endPos := endPos, flags := 0,
       boolValue := literal = "true", value := literal, rawText := literal }, r.2)
  else
    match zrPrev lex 2 with
    | some previous =>
      if previous.kind = ZrTokenKind.Keyword ∧ previous.value = "function" then
        ({ kind := ZrTokenKind.Identifier, startPos := startPos, endPos := endPos,
           flags := flagFunctionName, value := literal }, r.2)
      else (barewordStringToken startPos endPos literal, r.2)
    | none => (barewordStringToken startPos endPos literal, r.2)

/-! ## The dispatcher `readNext` -/

/-- Punctuation / bareword-literal tail of the `readNext` dispatch chain
(the last two `else if` arms).  `c` is the peeked character. -/
def coreSpecial (lex : ZrLexer) (s0 : ZrTextStream) (c : Char) : Option Token × ZrLexer :=
  if Grammar.Punctuation.contains c then
    (some { kind := ZrTokenKind.Special, startPos := s0.getPtr, endPos := s0.getPtr,
            flags := 0, value := String.mk [c] },
     { lex with
         stream := { s0 with ptr := s0.ptr + 1 },
         previousTokens :=
           (if c = ':' then setLabelFlag lex.previousTokens else lex.previousTokens) })
  else
    (some (readLiteralString { lex with stream := s0 }).1,
     { lex with stream := (readLiteralString { lex with stream := s0 }).2 })

def coreEos (lex : ZrLexer) (s0 : ZrTextStream) (c : Char) : Option Token × ZrLexer :=
  if Grammar.EndOfStatement.contains c then
    (some { kind := ZrTokenKind.EndOfStatement, startPos := s0.getPtr, flags := 0,
            endPos := s0.getPtr, value := String.mk [c] },
     { lex with stream := { s0 with ptr := s0.ptr + 1 } })
  else coreSpecial lex s0 c

def coreOp (lex : ZrLexer) (s0 : ZrTextStream) (c : Char) : Option Token × ZrLexer :=
  if Grammar.Operators.contains c then
    (some { kind := ZrTokenKind.Operator, startPos := s0.getPtr, flags := 0,
            endPos := s0.getPtr + 1,
            value := String.mk (readWhile (fun ch => Grammar.Operators.contains ch) s0).1 },
     { lex with stream := (readWhile (fun ch => Grammar.Operators.contains ch) s0).2 })
  else coreEos lex s0 c

def coreNum (lex : ZrLexer) (s0 : ZrTextStream) (c : Char) : Option Token × ZrLexer :=
  if isNumericChar c then
    (some (readNumber s0).1, { lex with stream := (readNumber s0).2 })
  else coreOp lex s0 c

def coreDash (lex : ZrLexer) (s0 : ZrTextStream) (c : Char) : Option Token × ZrLexer :=
  if c = '-' ∧ s0.peekAt 1 = some '-' then
    (some (readOption "--" { s0 with ptr := s0.ptr + 2 }).1,
     { lex with stream := (readOption "--" { s0 with ptr := s0.ptr + 2 }).2 })
  else coreNum lex s0 c

def coreQuote (lex : ZrLexer) (s0 : ZrTextStream) (c : Char) : Option Token × ZrLexer :=
  if c = '"' ∨ c = '\'' then
    (some (readStringToken c s0).1, { lex with stream := (readStringToken c s0).2 })
  else coreDash lex s0 c

def coreDollar (lex : ZrLexer) (s0 : ZrTextStream) (c : Char) : Option Token × ZrLexer :=
  if c = '$' then
    (some (readVariableToken s0).1, { lex with stream := (readVariableToken s0).2 })
  else coreQuote lex s0 c

def coreHash (recurse : ZrLexer → Option Token × ZrLexer) (lex : ZrLexer)
    (s0 : ZrTextStream) (c : Char) : Option Token × ZrLexer :=
  if c = '#' then
    if lex.options.ParseCommentsAsTokens then
      (some { kind := ZrTokenKind.Comment,
              value := String.mk (readWhile isNotNewlineChar s0).1, flags := 0,
              startPos := s0.getPtr,
              endPos := s0.getPtr + (String.mk (readWhile isNotNewlineChar s0).1).length },
       { lex with stream := (readWhile isNotNewlineChar s0).2 })
    else recurse { lex with stream := (readWhile isNotNewlineChar s0).2 }
  else coreDollar lex s0 c

def coreWs (recurse : ZrLexer → Option Token × ZrLexer) (lex : ZrLexer)
    (s0 : ZrTextStream) (c : Char) : Option Token × ZrLexer :=
  if lex.options.ParseWhitespaceAsTokens && isWhitespaceChar c then
    (some { kind := ZrTokenKind.Whitespace, value := String.mk [c],
            flags := 0, startPos := s0.getPtr, endPos := s0.getPtr },
     { lex with stream := { s0 with ptr := s0.ptr + 1 } })
  else coreHash recurse lex s0 c

def readNextCore (recurse : ZrLexer → Option Token × ZrLexer) (lex : ZrLexer)
    (s0 : ZrTextStream) : Option Token × ZrLexer :=
  if h : s0.ptr < s0.source.length then
    coreWs recurse lex s0 (s0.source.get ⟨s0.ptr, h⟩)
  else (none, { lex with stream := s0 })

/-- One `readNext` step.  The fuel only feeds the self-recursion of the
comment branch (`return this.readNext()` after a discarded comment), which
consumes at least the `#` character each time; the wrapper passes one more
than the number of unread characters. -/
def readNextF : Nat → ZrLexer → Option Token × ZrLexer
  | 0, lex => (none, lex)
  | Nat.succ fuel, lex =>
    readNextCore (readNextF fuel) lex
      (if lex.options.ParseWhitespaceAsTokens then lex.stream
       else (readWhile isWhitespaceChar lex.stream).2)

def readNext (lex : ZrLexer) : Option Token × ZrLexer :=
  readNextF (lex.stream.source.length - lex.stream.ptr + 1) lex

/-- `fetchNextToken`: memoised current token, else scan and append to the
history buffer. -/
def fetchNextToken (lex : ZrLexer) : Option Token × ZrLexer :=
  match lex.currentToken with
  | some t => (some t, lex)
  | none =>
    let r := readNext lex
    match r.1 with
    | some t => (some t, { r.2 with previousTokens := r.2.previousTokens ++ [t] })
    | none => (none, r.2)

def ZrLexer.next (lex : ZrLexer) : Option Token × ZrLexer :=
  let r := fetchNextToken lex
  (r.1, { r.2 with currentToken := none })

def ZrLexer.peek (lex : ZrLexer) : Option Token × ZrLexer :=
  let r := fetchNextToken lex
  (r.1, { r.2 with currentToken := r.1 })

def ZrLexer.hasNext (lex : ZrLexer) : Bool := lex.stream.hasNext

def mkLexer (src : String) : ZrLexer :=
  { stream := { source := src.data, ptr := 0 } }

def tokenizeLoop : Nat → ZrLexer → List Token
  | 0, _ => []
  | Nat.succ n, lex =>
    let r := ZrLexer.next lex
    match r.1 with
    | some t => t :: tokenizeLoop n r.2
    | none => []

/-- All tokens of a source under the default options. -/
def lexTokens (src : String) : List Token :=
  tokenizeLoop (src.length + 1) (mkLexer src)

def nextNTimes : Nat → ZrLexer → ZrLexer
  | 0, lex => lex
  | Nat.succ n, lex => nextNTimes n (ZrLexer.next lex).2

/-! ## Lemmas about the long-string scanner -/

theorem finishChunks_length_ge (src : List String) (str : List Char) :
    src.length ≤ (finishChunks src str).length := by
  unfold finishChunks
  split
  · exact Nat.le_refl _
  · simp

theorem finishChunks_length_le (src : List String) (str : List Char) :
    (finishChunks src str).length ≤ src.length + 1 := by
  unfold finishChunks
  split
  · omega
  · simp

theorem parseLongStringLoopF_source (fuel : Nat) (q : Char) (str : List Char)
    (src vars : List String) (esc : Bool) (s : ZrTextStream) :
    (parseLongStringLoopF fuel q str src vars esc s).2.source = s.source := by
  induction fuel generalizing str src vars esc s with
  | zero => rfl
  | succ n ih =>
    simp only [parseLongStringLoopF]
    split
    · split
      · exact ih ..
      · split
        · exact ih ..
        · split
          · rfl
          · split
            · rw [ih]
              exact readWhile_source ..
            · exact ih ..
    · rfl

theorem parseLongStringLoopF_ptr_ge (fuel : Nat) (q : Char) (str : List Char)
    (src vars : List String) (esc : Bool) (s : ZrTextStream) :
    s.ptr ≤ (parseLongStringLoopF fuel q str src vars esc s).2.ptr := by
  induction fuel generalizing str src vars esc s with
  | zero => exact Nat.le_refl _
  | succ n ih =>
    simp only [parseLongStringLoopF]
    split
    · next hlt =>
      split
      · exact Nat.le_trans (Nat.le_succ _)
          (ih (str ++ [s.source.get ⟨s.ptr, hlt⟩]) src vars false { s with ptr := s.ptr + 1 })
      · split
        · exact Nat.le_trans (Nat.le_succ _)
            (ih (str ++ [s.source.get ⟨s.ptr, hlt⟩]) src vars true { s with ptr := s.ptr + 1 })
        · split
          · exact Nat.le_succ _
          · split
            · exact Nat.le_trans (Nat.le_succ _)
                (Nat.le_trans (readWhile_ptr_ge isIdChar { s with ptr := s.ptr + 1 })
                  (ih [] (src ++ [String.mk str])
                    (vars ++ [String.mk (readWhile isIdChar { s with ptr := s.ptr + 1 }).1])
                    false (readWhile isIdChar { s with ptr := s.ptr + 1 }).2))
            · exact Nat.le_trans (Nat.le_succ _)
                (ih (str ++ [s.source.get ⟨s.ptr, hlt⟩]) src vars false
                  { s with ptr := s.ptr + 1 })
    · exact Nat.le_refl _

theorem parseLongStringLoopF_ptr_le (fuel : Nat) (q : Char) (str : List Char)
    (src vars : List String) (esc : Bool) (s : ZrTextStream)
    (h : s.ptr ≤ s.source.length) :
    (parseLongStringLoopF fuel q str src vars esc s).2.ptr ≤ s.source.length := by
  induction fuel generalizing str src vars esc s with
  | zero => exact h
  | succ n ih =>
    simp only [parseLongStringLoopF]
    split
    · next hlt =>
      split
      · exact ih (str ++ [s.source.get ⟨s.ptr, hlt⟩]) src vars false
          { s with ptr := s.ptr + 1 } hlt
      · split
        · exact ih (str ++ [s.source.get ⟨s.ptr, hlt⟩]) src vars true
            { s with ptr := s.ptr + 1 } hlt
        · split
          · exact hlt
          · split
            · have h1s := readWhile_source isIdChar { s with ptr := s.ptr + 1 }
              have h1 := readWhile_ptr_le isIdChar { s with ptr := s.ptr + 1 } hlt
              have h2 := ih [] (src ++ [String.mk str])
                (vars ++ [String.mk (readWhile isIdChar { s with ptr := s.ptr + 1 }).1]) false
                (readWhile isIdChar { s with ptr := s.ptr + 1 }).2
                (by rw [h1s]; exact h1)
              rw [h1s] at h2
              exact h2
            · exact ih (str ++ [s.source.get ⟨s.ptr, hlt⟩]) src vars false
                { s with ptr := s.ptr + 1 } hlt
    · exact h

theorem parseLongStringLoopF_counts (fuel : Nat) (q : Char) (str : List Char)
    (src vars : List String) (esc : Bool) (s : ZrTextStream)
    (hlen : src.length = vars.length) :
    (parseLongStringLoopF fuel q str src vars esc s).1.2.1.length ≤
      (parseLongStringLoopF fuel q str src vars esc s).1.1.length ∧
    (parseLongStringLoopF fuel q str src vars esc s).1.1.length ≤
      (parseLongStringLoopF fuel q str src vars esc s).1.2.1.length + 1 := by
  induction fuel generalizing str src vars esc s with
  | zero =>
    have h1 := finishChunks_length_ge src str
    have h2 := finishChunks_length_le src str
    show vars.length ≤ (finishChunks src str).length ∧
      (finishChunks src str).length ≤ vars.length + 1
    omega
  | succ n ih =>
    simp only [parseLongStringLoopF]
    split
    · next hlt =>
      split
      · exact ih (str ++ [s.source.get ⟨s.ptr, hlt⟩]) src vars false
          { s with ptr := s.ptr + 1 } hlen
      · split
        · exact ih (str ++ [s.source.get ⟨s.ptr, hlt⟩]) src vars true
            { s with ptr := s.ptr + 1 } hlen
        · split
          · have h1 := finishChunks_length_ge src str
            have h2 := finishChunks_length_le src str
            show vars.length ≤ (finishChunks src str).length ∧
              (finishChunks src str).length ≤ vars.length + 1
            omega
          · split
            · exact ih [] (src ++ [String.mk str])
                (vars ++ [String.mk (readWhile isIdChar { s with ptr := s.ptr + 1 }).1]) false
                (readWhile isIdChar { s with ptr := s.ptr + 1 }).2 (by simp [hlen])
            · exact ih (str ++ [s.source.get ⟨s.ptr, hlt⟩]) src vars false
                { s with ptr := s.ptr + 1 } hlen
    · have h1 := finishChunks_length_ge src str
      have h2 := finishChunks_length_le src str
      show vars.length ≤ (finishChunks src str).length ∧
        (finishChunks src str).length ≤ vars.length + 1
      omega

/-- When the loop reports `closed = false` and the fuel covered the rest of
the stream, the scan really did reach the end of the input. -/
theorem parseLongStringLoopF_closed_eof (fuel : Nat) (q : Char) (str : List Char)
    (src vars : List String) (esc : Bool) (s : ZrTextStream)
    (hfuel : s.source.length - s.ptr ≤ fuel)
    (hclosed : (parseLongStringLoopF fuel q str src vars esc s).1.2.2 = false) :
    s.source.length ≤ (parseLongStringLoopF fuel q str src vars esc s).2.ptr := by
  induction fuel generalizing str src vars esc s with
  | zero =>
    dsimp only [parseLongStringLoopF]
    omega
  | succ n ih =>
    simp only [parseLongStringLoopF] at hclosed ⊢
    split at hclosed
    · next hlt =>
      rw [dif_pos hlt]
      split at hclosed
      · next hesc =>
        rw [if_pos hesc]
        exact ih _ _ _ _ _ (by show s.source.length - (s.ptr + 1) ≤ n; omega) hclosed
      · next hesc =>
        rw [if_neg hesc]
        split at hclosed
        · next hbs =>
          rw [if_pos hbs]
          exact ih _ _ _ _ _ (by show s.source.length - (s.ptr + 1) ≤ n; omega) hclosed
        · next hbs =>
          rw [if_neg hbs]
          split at hclosed
          · simp at hclosed
          · next hq =>
            rw [if_neg hq]
            split at hclosed
            · next hd =>
              rw [if_pos hd]
              have h1s := readWhile_source isIdChar { s with ptr := s.ptr + 1 }
              have h1 := readWhile_ptr_ge isIdChar { s with ptr := s.ptr + 1 }
              have h2 := ih [] (src ++ [String.mk str])
                (vars ++ [String.mk (readWhile isIdChar { s with ptr := s.ptr + 1 }).1]) false
                (readWhile isIdChar { s with ptr := s.ptr + 1 }).2
                (by
                  rw [h1s]
                  show s.source.length - _ ≤ n
                  have h1' : s.ptr + 1 ≤ (readWhile isIdChar { s with ptr := s.ptr + 1 }).2.ptr := h1
                  omega) hclosed
              rw [h1s] at h2
              exact h2
            · next hd =>
              rw [if_neg hd]
              exact ih _ _ _ _ _ (by show s.source.length - (s.ptr + 1) ≤ n; omega) hclosed
    · next hge =>
      rw [dif_neg hge]
      show s.source.length ≤ s.ptr
      omega

theorem parseLongString_source (q : Char) (s : ZrTextStream) :
    (parseLongString q s).2.source = s.source :=
  parseLongStringLoopF_source ..

theorem parseLongString_ptr_ge (q : Char) (s : ZrTextStream) :
    s.ptr + 1 ≤ (parseLongString q s).2.ptr := by
  have := parseLongStringLoopF_ptr_ge (s.source.length - s.ptr) q [] [] [] false
    { s with ptr := s.ptr + 1 }
  simpa [parseLongString] using this

theorem parseLongString_ptr_le (q : Char) (s : ZrTextStream)
    (h : s.ptr < s.source.length) :
    (parseLongString q s).2.ptr ≤ s.source.length := by
  have := parseLongStringLoopF_ptr_le (s.source.length - s.ptr) q [] [] [] false
    { s with ptr := s.ptr + 1 } (by simp; omega)
  simpa [parseLongString] using this

theorem parseLongString_counts (q : Char) (s : ZrTextStream) :
    (parseLongString q s).1.2.1.length ≤ (parseLongString q s).1.1.length ∧
    (parseLongString q s).1.1.length ≤ (parseLongString q s).1.2.1.length + 1 :=
  parseLongStringLoopF_counts _ _ _ _ _ _ _ rfl

theorem parseLongString_closed_eof (q : Char) (s : ZrTextStream)
    (hclosed : (parseLongString q s).1.2.2 = false) :
    s.source.length ≤ (parseLongString q s).2.ptr := by
  have := parseLongStringLoopF_closed_eof (s.source.length - s.ptr) q [] [] [] false
    { s with ptr := s.ptr + 1 } (by simp; omega) (by simpa [parseLongString] using hclosed)
  simpa [parseLongString] using this

/-! ## Per-reader span facts -/

theorem stringMk_length (l : List Char) : (String.mk l).length = l.length := rfl

theorem numCond_first (c : Char) (hc : isNumericChar c = true) :
    (numCond false c).1 = true := by
  unfold numCond
  split
  · rfl
  · simpa using hc

theorem readStringToken_fields (q : Char) (s : ZrTextStream) :
    ((readStringToken q s).1.kind = ZrTokenKind.String ∨
      (readStringToken q s).1.kind = ZrTokenKind.InterpolatedString) ∧
    (readStringToken q s).1.quotes = some q ∧
    (readStringToken q s).1.startPos = s.ptr ∧
    (readStringToken q s).1.endPos = (readStringToken q s).2.ptr ∧
    (readStringToken q s).2 = (parseLongString q s).2 := by
  simp only [readStringToken]
  split
  · exact ⟨Or.inl rfl, rfl, rfl, rfl, rfl⟩
  · exact ⟨Or.inr rfl, rfl, rfl, rfl, rfl⟩

theorem readStringToken_counts (q : Char) (s : ZrTextStream) :
    (readStringToken q s).1.kind = ZrTokenKind.InterpolatedString →
    (readStringToken q s).1.varNames.length ≤ (readStringToken q s).1.values.length ∧
    (readStringToken q s).1.values.length ≤ (readStringToken q s).1.varNames.length + 1 := by
  have hc := parseLongString_counts q s
  simp only [readStringToken]
  split
  · intro hk
    simp at hk
  · intro _
    exact hc

theorem readNumber_fields (s : ZrTextStream) :
    (readNumber s).1.kind = ZrTokenKind.Number ∧
    (readNumber s).1.quotes = none ∧
    (readNumber s).1.startPos = s.ptr ∧
    (readNumber s).1.endPos = (readNumber s).2.ptr - 1 ∧
    (readNumber s).2 = (readWhileAux numCond false s).2 :=
  ⟨rfl, rfl, rfl, rfl, rfl⟩

theorem readNumber_progress (s : ZrTextStream) (h : s.ptr < s.source.length)
    (hc : isNumericChar (s.source.get ⟨s.ptr, h⟩) = true) :
    s.ptr + 1 ≤ (readNumber s).2.ptr := by
  have := readWhileAuxF_progress (s.source.length - s.ptr) numCond false s h
    (numCond_first _ hc) (by omega)
  exact this

theorem readNumber_ptr_le (s : ZrTextStream) (h : s.ptr ≤ s.source.length) :
    (readNumber s).2.ptr ≤ s.source.length :=
  readWhileAuxF_ptr_le _ _ _ _ h

theorem readNumber_source (s : ZrTextStream) : (readNumber s).2.source = s.source :=
  readWhileAuxF_source ..

theorem readPropsLoopF_source (fuel : Nat) (s : ZrTextStream) (acc : List (List Char)) :
    (readPropsLoopF fuel s acc).2.source = s.source := by
  induction fuel generalizing s acc with
  | zero => rfl
  | succ n ih =>
    simp only [readPropsLoopF]
    split
    · split
      · rw [ih]
        exact readWhile_source ..
      · rfl
    · rfl

theorem readPropsLoopF_ptr_ge (fuel : Nat) (s : ZrTextStream) (acc : List (List Char)) :
    s.ptr ≤ (readPropsLoopF fuel s acc).2.ptr := by
  induction fuel generalizing s acc with
  | zero => exact Nat.le_refl _
  | succ n ih =>
    simp only [readPropsLoopF]
    split
    · split
      · exact Nat.le_trans (Nat.le_succ _)
          (Nat.le_trans (readWhile_ptr_ge isIdChar { s with ptr := s.ptr + 1 })
            (ih (readWhile isIdChar { s with ptr := s.ptr + 1 }).2
              (acc ++ [(readWhile isIdChar { s with ptr := s.ptr + 1 }).1])))
      · exact Nat.le_refl _
    · exact Nat.le_refl _

theorem readPropsLoopF_ptr_le (fuel : Nat) (s : ZrTextStream) (acc : List (List Char))
    (h : s.ptr ≤ s.source.length) :
    (readPropsLoopF fuel s acc).2.ptr ≤ s.source.length := by
  induction fuel generalizing s acc with
  | zero => exact h
  | succ n ih =>
    simp only [readPropsLoopF]
    split
    · next hlt =>
      split
      · have h1s := readWhile_source isIdChar { s with ptr := s.ptr + 1 }
        have h1 := readWhile_ptr_le isIdChar { s with ptr := s.ptr + 1 } hlt
        have h2 := ih (readWhile isIdChar { s with ptr := s.ptr + 1 }).2
          (acc ++ [(readWhile isIdChar { s with ptr := s.ptr + 1 }).1])
          (by rw [h1s]; exact h1)
        rw [h1s] at h2
        exact h2
      · exact h
    · exact h

theorem readVariableToken_spec (s : ZrTextStream) (h : s.ptr < s.source.length) :
    ((readVariableToken s).1.kind = ZrTokenKind.PropertyAccess ∨
      (readVariableToken s).1.kind = ZrTokenKind.Identifier) ∧
    (readVariableToken s).1.quotes = none ∧
    (readVariableToken s).1.startPos = s.ptr ∧
    (readVariableToken s).1.endPos = (readVariableToken s).2.ptr - 1 ∧
    s.ptr + 1 ≤ (readVariableToken s).2.ptr ∧
    (readVariableToken s).2.ptr ≤ s.source.length ∧
    (readVariableToken s).2.source = s.source := by
  have hridsrc := readWhile_source isIdChar { s with ptr := s.ptr + 1 }
  have hridge := readWhile_ptr_ge isIdChar { s with ptr := s.ptr + 1 }
  have hridle := readWhile_ptr_le isIdChar { s with ptr := s.ptr + 1 } h
  have hpsrc := readPropsLoopF_source
    ((readWhile isIdChar { s with ptr := s.ptr + 1 }).2.source.length -
      (readWhile isIdChar { s with ptr := s.ptr + 1 }).2.ptr)
    (readWhile isIdChar { s with ptr := s.ptr + 1 }).2 []
  have hpge := readPropsLoopF_ptr_ge
    ((readWhile isIdChar { s with ptr := s.ptr + 1 }).2.source.length -
      (readWhile isIdChar { s with ptr := s.ptr + 1 }).2.ptr)
    (readWhile isIdChar { s with ptr := s.ptr + 1 }).2 []
  have hple := readPropsLoopF_ptr_le
    ((readWhile isIdChar { s with ptr := s.ptr + 1 }).2.source.length -
      (readWhile isIdChar { s with ptr := s.ptr + 1 }).2.ptr)
    (readWhile isIdChar { s with ptr := s.ptr + 1 }).2 []
    (by rw [hridsrc]; exact hridle)
  simp only [readVariableToken]
  split
  · refine ⟨Or.inl rfl, rfl, rfl, rfl, ?_, ?_, ?_⟩
    · exact Nat.le_trans hridge hpge
    · exact Nat.le_trans hple (Nat.le_of_eq (congrArg List.length hridsrc))
    · exact hpsrc.trans hridsrc
  · refine ⟨Or.inr rfl, rfl, rfl, rfl, ?_, ?_, ?_⟩
    · exact Nat.le_trans hridge hpge
    · exact Nat.le_trans hple (Nat.le_of_eq (congrArg List.length hridsrc))
    · exact hpsrc.trans hridsrc

theorem readOption_spec (pre : String) (s : ZrTextStream) (h : s.ptr ≤ s.source.length) :
    (readOption pre s).1.kind = ZrTokenKind.Option ∧
    (readOption pre s).1.quotes = none ∧
    (readOption pre s).1.startPos = s.ptr ∧
    (readOption pre s).1.endPos = (readOption pre s).2.ptr - 1 ∧
    (readOption pre s).2.ptr = s.ptr + (readOption pre s).1.value.length ∧
    (readOption pre s).2.ptr ≤ s.source.length ∧
    (readOption pre s).2.source = s.source := by
  refine ⟨rfl, rfl, rfl, rfl, ?_, ?_, ?_⟩
  · show (readWhile isOptionIdChar s).2.ptr =
      s.ptr + (String.mk (readWhile isOptionIdChar s).1).length
    rw [stringMk_length]
    exact readWhile_ptr ..
  · exact readWhile_ptr_le _ _ h
  · exact readWhile_source ..

theorem readLiteralString_spec (lex : ZrLexer)
    (h : lex.stream.ptr < lex.stream.source.length)
    (hlit : litCond (lex.stream.source.get ⟨lex.stream.ptr, h⟩) = true) :
    ((readLiteralString lex).1.kind = ZrTokenKind.Keyword ∨
      (readLiteralString lex).1.kind = ZrTokenKind.Boolean ∨
      (readLiteralString lex).1.kind = ZrTokenKind.Identifier ∨
      (readLiteralString lex).1.kind = ZrTokenKind.String) ∧
    (readLiteralString lex).1.quotes = none ∧
    (readLiteralString lex).1.startPos = lex.stream.ptr ∧
    (readLiteralString lex).1.endPos = (readLiteralString lex).2.ptr - 1 ∧
    lex.stream.ptr + 1 ≤ (readLiteralString lex).2.ptr ∧
    (readLiteralString lex).2.ptr ≤ lex.stream.source.length ∧
    (readLiteralString lex).2.source = lex.stream.source := by
  have hprog := readWhile_progress litCond lex.stream h hlit
  have hle := readWhile_ptr_le litCond lex.stream (Nat.le_of_lt h)
  have hsrc := readWhile_source litCond lex.stream
  simp only [readLiteralString]
  split
  · exact ⟨Or.inl rfl, rfl, rfl, rfl, hprog, hle, hsrc⟩
  · split
    · exact ⟨Or.inr (Or.inl rfl), rfl, rfl, rfl, hprog, hle, hsrc⟩
    · split
      · split
        · exact ⟨Or.inr (Or.inr (Or.inl rfl)), rfl, rfl, rfl, hprog, hle, hsrc⟩
        · exact ⟨Or.inr (Or.inr (Or.inr rfl)), rfl, rfl, rfl, hprog, hle, hsrc⟩
      · exact ⟨Or.inr (Or.inr (Or.inr rfl)), rfl, rfl, rfl, hprog, hle, hsrc⟩

/-! ## The span specification of a scanned token

`spanSpec t ptrAfter len` records, for a token returned by one `readNext`
dispatch over a source of length `len` leaving the stream pointer at
`ptrAfter`: the bounds of the span, and the per-kind relation between
`endPos` and the pointer after the scan. -/

def spanSpec (t : Token) (ptrAfter : Nat) (len : Nat) : Prop :=
  t.endPos ≤ len ∧
  t.startPos ≤ t.endPos + 1 ∧
  (t.startPos ≤ t.endPos ∨ (t.kind = ZrTokenKind.Option ∧ t.value = "")) ∧
  ((t.kind = ZrTokenKind.Number ∨ t.kind = ZrTokenKind.Keyword ∨
      t.kind = ZrTokenKind.Boolean ∨ t.kind = ZrTokenKind.Identifier ∨
      t.kind = ZrTokenKind.PropertyAccess ∨ t.kind = ZrTokenKind.Option ∨
      (t.kind = ZrTokenKind.String ∧ t.quotes = none)) →
    t.endPos + 1 = ptrAfter) ∧
  (((t.kind = ZrTokenKind.String ∨ t.kind = ZrTokenKind.InterpolatedString) ∧
      t.quotes ≠ none ∨ t.kind = ZrTokenKind.Comment) → t.endPos = ptrAfter) ∧
  (t.kind = ZrTokenKind.Operator →
    t.endPos = t.startPos + 1 ∧ ptrAfter = t.startPos + t.value.length ∧
      1 ≤ t.value.length) ∧
  ((t.kind = ZrTokenKind.Special ∨ t.kind = ZrTokenKind.EndOfStatement ∨
      t.kind = ZrTokenKind.Whitespace) → t.endPos = t.startPos ∧ ptrAfter = t.startPos + 1) ∧
  (t.kind = ZrTokenKind.InterpolatedString →
    t.varNames.length ≤ t.values.length ∧ t.values.length ≤ t.varNames.length + 1)

theorem stringLength_zero_eq (v : String) (h : v.length = 0) : v = "" := by
  cases v with
  | mk data =>
    have : data = [] := List.length_eq_zero.mp h
    rw [this]

theorem spanSpec_one (t : Token) (ptrAfter len : Nat)
    (hk : t.kind = ZrTokenKind.Special ∨ t.kind = ZrTokenKind.EndOfStatement ∨
      t.kind = ZrTokenKind.Whitespace)
    (hse : t.endPos = t.startPos)
    (hptr : ptrAfter = t.startPos + 1)
    (hp : t.startPos < len) : spanSpec t ptrAfter len := by
  unfold spanSpec
  refine ⟨by omega, by omega, Or.inl (by omega), ?_, ?_, ?_, fun _ => ⟨hse, hptr⟩, ?_⟩
  · rintro (h1|h1|h1|h1|h1|h1|⟨h1, h2⟩) <;> rcases hk with hx|hx|hx <;> rw [hx] at h1 <;>
      exact absurd h1 (by decide)
  · rintro (⟨(h1|h1), h2⟩ | h1) <;> rcases hk with hx|hx|hx <;> rw [hx] at h1 <;>
      exact absurd h1 (by decide)
  · intro h1
    rcases hk with hx|hx|hx <;> rw [hx] at h1 <;> exact absurd h1 (by decide)
  · intro h1
    rcases hk with hx|hx|hx <;> rw [hx] at h1 <;> exact absurd h1 (by decide)

theorem spanSpec_of_scan (t : Token) (ptrAfter len : Nat)
    (hk : t.kind = ZrTokenKind.Number ∨ t.kind = ZrTokenKind.Keyword ∨
      t.kind = ZrTokenKind.Boolean ∨ t.kind = ZrTokenKind.Identifier ∨
      t.kind = ZrTokenKind.PropertyAccess ∨ t.kind = ZrTokenKind.String)
    (hq : t.quotes = none)
    (hstart : t.startPos + 1 ≤ ptrAfter)
    (hend : t.endPos = ptrAfter - 1)
    (hle : ptrAfter ≤ len) : spanSpec t ptrAfter len := by
  unfold spanSpec
  refine ⟨by omega, by omega, Or.inl (by omega), fun _ => by omega, ?_, ?_, ?_, ?_⟩
  · rintro (⟨h1, h2⟩ | h1)
    · exact absurd hq h2
    · rcases hk with hx|hx|hx|hx|hx|hx <;> rw [hx] at h1 <;> exact absurd h1 (by decide)
  · intro h1
    rcases hk with hx|hx|hx|hx|hx|hx <;> rw [hx] at h1 <;> exact absurd h1 (by decide)
  · rintro (h1|h1|h1) <;> rcases hk with hx|hx|hx|hx|hx|hx <;> rw [hx] at h1 <;>
      exact absurd h1 (by decide)
  · intro h1
    rcases hk with hx|hx|hx|hx|hx|hx <;> rw [hx] at h1 <;> exact absurd h1 (by decide)

theorem spanSpec_option_tok (t : Token) (ptrAfter len : Nat)
    (hk : t.kind = ZrTokenKind.Option) (hq : t.quotes = none)
    (hstart2 : 1 ≤ t.startPos)
    (hptr : ptrAfter = t.startPos + t.value.length)
    (hend : t.endPos = ptrAfter - 1)
    (hle : ptrAfter ≤ len) : spanSpec t ptrAfter len := by
  unfold spanSpec
  refine ⟨by omega, by omega, ?_, fun _ => by omega, ?_, ?_, ?_, ?_⟩
  · by_cases hv : t.value.length = 0
    · exact Or.inr ⟨hk, stringLength_zero_eq _ hv⟩
    · exact Or.inl (by omega)
  · rintro (⟨h1, h2⟩ | h1)
    · exact absurd hq h2
    · rw [hk] at h1; exact absurd h1 (by decide)
  · intro h1; rw [hk] at h1; exact absurd h1 (by decide)
  · rintro (h1|h1|h1) <;> rw [hk] at h1 <;> exact absurd h1 (by decide)
  · intro h1; rw [hk] at h1; exact absurd h1 (by decide)

theorem spanSpec_quoted (t : Token) (ptrAfter len : Nat)
    (hk : t.kind = ZrTokenKind.String ∨ t.kind = ZrTokenKind.InterpolatedString)
    (hq : t.quotes ≠ none)
    (hstart : t.startPos + 1 ≤ ptrAfter)
    (hend : t.endPos = ptrAfter)
    (hle : ptrAfter ≤ len)
    (hcnt : t.kind = ZrTokenKind.InterpolatedString →
      t.varNames.length ≤ t.values.length ∧
        t.values.length ≤ t.varNames.length + 1) : spanSpec t ptrAfter len := by
  unfold spanSpec
  refine ⟨by omega, by omega, Or.inl (by omega), ?_, fun _ => hend, ?_, ?_, hcnt⟩
  · rintro (h1|h1|h1|h1|h1|h1|⟨h1, h2⟩)
    · rcases hk with hx|hx <;> rw [hx] at h1 <;> exact absurd h1 (by decide)
    · rcases hk with hx|hx <;> rw [hx] at h1 <;> exact absurd h1 (by decide)
    · rcases hk with hx|hx <;> rw [hx] at h1 <;> exact absurd h1 (by decide)
    · rcases hk with hx|hx <;> rw [hx] at h1 <;> exact absurd h1 (by decide)
    · rcases hk with hx|hx <;> rw [hx] at h1 <;> exact absurd h1 (by decide)
    · rcases hk with hx|hx <;> rw [hx] at h1 <;> exact absurd h1 (by decide)
    · exact absurd h2 hq
  · intro h1
    rcases hk with hx|hx <;> rw [hx] at h1 <;> exact absurd h1 (by decide)
  · rintro (h1|h1|h1) <;> rcases hk with hx|hx <;> rw [hx] at h1 <;>
      exact absurd h1 (by decide)

theorem spanSpec_comment_tok (t : Token) (ptrAfter len : Nat)
    (hk : t.kind = ZrTokenKind.Comment)
    (hstart : t.startPos ≤ t.endPos)
    (hend : t.endPos = ptrAfter)
    (hle : ptrAfter ≤ len) : spanSpec t ptrAfter len := by
  unfold spanSpec
  refine ⟨by omega, by omega, Or.inl hstart, ?_, fun _ => hend, ?_, ?_, ?_⟩
  · rintro (h1|h1|h1|h1|h1|h1|⟨h1, h2⟩) <;> rw [hk] at h1 <;> exact absurd h1 (by decide)
  · intro h1; rw [hk] at h1; exact absurd h1 (by decide)
  · rintro (h1|h1|h1) <;> rw [hk] at h1 <;> exact absurd h1 (by decide)
  · intro h1; rw [hk] at h1; exact absurd h1 (by decide)

theorem spanSpec_operator_tok (t : Token) (ptrAfter len : Nat)
    (hk : t.kind = ZrTokenKind.Operator)
    (hend : t.endPos = t.startPos + 1)
    (hptr : ptrAfter = t.startPos + t.value.length)
    (hv : 1 ≤ t.value.length)
    (hle : t.startPos + 1 ≤ len) : spanSpec t ptrAfter len := by
  unfold spanSpec
  refine ⟨by omega, by omega, Or.inl (by omega), ?_, ?_, fun _ => ⟨hend, hptr, hv⟩, ?_, ?_⟩
  · rintro (h1|h1|h1|h1|h1|h1|⟨h1, h2⟩) <;> rw [hk] at h1 <;> exact absurd h1 (by decide)
  · rintro (⟨(h1|h1), h2⟩ | h1) <;> rw [hk] at h1 <;> exact absurd h1 (by decide)
  · rintro (h1|h1|h1) <;> rw [hk] at h1 <;> exact absurd h1 (by decide)
  · intro h1; rw [hk] at h1; exact absurd h1 (by decide)

/-- Span facts of a single dispatch of `readNext`, given the usual facts
about the post-whitespace-skip stream `s0` and the behaviour of the
self-call `recurse` used by the comment branch. -/
theorem readNextCore_spec (recurse : ZrLexer → Option Token × ZrLexer) (lex : ZrLexer)
    (s0 : ZrTextStream) (t : Token)
    (hsrc : s0.source = lex.stream.source)
    (hskip : lex.options.ParseWhitespaceAsTokens = false →
      ∀ c, s0.source.get? s0.ptr = some c → isWhitespaceChar c = false)
    (hrec : ∀ (lex' : ZrLexer) (t' : Token), lex'.stream.source = lex.stream.source →
      lex'.stream.ptr ≤ lex.stream.source.length →
      (recurse lex').1 = some t' →
      spanSpec t' (recurse lex').2.stream.ptr lex.stream.source.length)
    (ht : (readNextCore recurse lex s0).1 = some t) :
    spanSpec t (readNextCore recurse lex s0).2.stream.ptr lex.stream.source.length := by
  have hlenEq : s0.source.length = lex.stream.source.length := congrArg List.length hsrc
  rcases hE : readNextCore recurse lex s0 with ⟨tOut, lexOut⟩
  replace ht : tOut = some t := by rw [hE] at ht; exact ht
  subst ht
  show spanSpec t lexOut.stream.ptr lex.stream.source.length
  unfold readNextCore at hE
  split at hE
  · next h =>
    unfold coreWs at hE
    split at hE
    · next hws =>
      -- whitespace token
      injection hE with hE1 hE2
      injection hE1 with hE1
      subst hE1
      subst hE2
      exact spanSpec_one _ _ _ (Or.inr (Or.inr rfl)) rfl rfl
        (by show s0.ptr < lex.stream.source.length; omega)
    · next hws =>
      unfold coreHash at hE
      split at hE
      · next hh =>
        split at hE
        · next hpc =>
          -- comment token
          injection hE with hE1 hE2
          injection hE1 with hE1
          subst hE1
          subst hE2
          show spanSpec _ (readWhile isNotNewlineChar s0).2.ptr _
          have hptr := readWhile_ptr isNotNewlineChar s0
          have hple := readWhile_ptr_le isNotNewlineChar s0 (Nat.le_of_lt h)
          refine spanSpec_comment_tok _ _ _ rfl ?_ ?_ (by omega)
          · show s0.ptr ≤ s0.ptr + (String.mk (readWhile isNotNewlineChar s0).1).length
            omega
          · show s0.ptr + (String.mk (readWhile isNotNewlineChar s0).1).length =
              (readWhile isNotNewlineChar s0).2.ptr
            rw [stringMk_length]
            omega
        · next hpc =>
          -- discarded comment: recurse
          have hsrc2 : (readWhile isNotNewlineChar s0).2.source = lex.stream.source :=
            (readWhile_source _ _).trans hsrc
          have hle2 : (readWhile isNotNewlineChar s0).2.ptr ≤ lex.stream.source.length := by
            have := readWhile_ptr_le isNotNewlineChar s0 (Nat.le_of_lt h)
            omega
          have ht2 : (recurse { lex with stream := (readWhile isNotNewlineChar s0).2 }).1 =
              some t := by rw [hE]
          have hsnd : (recurse { lex with stream := (readWhile isNotNewlineChar s0).2 }).2 =
              lexOut := by rw [hE]
          have hmain := hrec _ t hsrc2 hle2 ht2
          rw [hsnd] at hmain
          exact hmain
      · next hh =>
        unfold coreDollar at hE
        split at hE
        · next hd =>
          -- variable token
          injection hE with hE1 hE2
          injection hE1 with hE1
          subst hE1
          subst hE2
          show spanSpec (readVariableToken s0).1 (readVariableToken s0).2.ptr _
          obtain ⟨hk, hq, hstart, hend, hge, hple, _⟩ := readVariableToken_spec s0 h
          refine spanSpec_of_scan _ _ _ ?_ hq (by omega) (by omega) (by omega)
          · rcases hk with hk|hk
            · exact Or.inr (Or.inr (Or.inr (Or.inr (Or.inl hk))))
            · exact Or.inr (Or.inr (Or.inr (Or.inl hk)))
        · next hd =>
          unfold coreQuote at hE
          split at hE
          · next hq =>
            -- quoted string token
            injection hE with hE1 hE2
            injection hE1 with hE1
            subst hE1
            subst hE2
            show spanSpec (readStringToken (s0.source.get ⟨s0.ptr, h⟩) s0).1
              (readStringToken (s0.source.get ⟨s0.ptr, h⟩) s0).2.ptr _
            obtain ⟨hk, hqt, hstart, hend, hstream⟩ :=
              readStringToken_fields (s0.source.get ⟨s0.ptr, h⟩) s0
            have hge := parseLongString_ptr_ge (s0.source.get ⟨s0.ptr, h⟩) s0
            have hple := parseLongString_ptr_le (s0.source.get ⟨s0.ptr, h⟩) s0 h
            rw [← hstream] at hge hple
            refine spanSpec_quoted _ _ _ hk (by rw [hqt]; simp) (by omega) hend (by omega)
              (readStringToken_counts _ _)
          · next hq =>
            unfold coreDash at hE
            split at hE
            · next hdash =>
              -- option token
              injection hE with hE1 hE2
              injection hE1 with hE1
              subst hE1
              subst hE2
              show spanSpec (readOption "--" { s0 with ptr := s0.ptr + 2 }).1
                (readOption "--" { s0 with ptr := s0.ptr + 2 }).2.ptr _
              have hpk : s0.ptr + 1 < s0.source.length := by
                have := hdash.2
                unfold ZrTextStream.peekAt at this
                by_contra hcon
                rw [List.get?_eq_none.mpr (by omega)] at this
                exact absurd this (by simp)
              obtain ⟨hk, hqs, hstart, hend, hptr, hple, _⟩ :=
                readOption_spec "--" { s0 with ptr := s0.ptr + 2 }
                  (by show s0.ptr + 2 ≤ s0.source.length; omega)
              refine spanSpec_option_tok _ _ _ hk hqs ?_ ?_ hend ?_
              · rw [hstart]
                show 1 ≤ s0.ptr + 2
                omega
              · rw [hstart]
                exact hptr
              · have hsl : ({ s0 with ptr := s0.ptr + 2 } : ZrTextStream).source.length =
                    s0.source.length := rfl
                omega
            · next hdash =>
              unfold coreNum at hE
              split at hE
              · next hnum =>
                -- number token
                injection hE with hE1 hE2
                injection hE1 with hE1
                subst hE1
                subst hE2
                show spanSpec (readNumber s0).1 (readNumber s0).2.ptr _
                obtain ⟨hk, hqs, hstart, hend, _⟩ := readNumber_fields s0
                have hge := readNumber_progress s0 h hnum
                have hple := readNumber_ptr_le s0 (Nat.le_of_lt h)
                exact spanSpec_of_scan _ _ _ (Or.inl hk) hqs (by omega) (by omega) (by omega)
              · next hnum =>
                unfold coreOp at hE
                split at hE
                · next hop =>
                  -- operator token
                  injection hE with hE1 hE2
                  injection hE1 with hE1
                  subst hE1
                  subst hE2
                  show spanSpec _
                    (readWhile (fun ch => Grammar.Operators.contains ch) s0).2.ptr _
                  have hptr := readWhile_ptr (fun ch => Grammar.Operators.contains ch) s0
                  have hge := readWhile_progress (fun ch => Grammar.Operators.contains ch) s0 h hop
                  refine spanSpec_operator_tok _ _ _ rfl rfl ?_ ?_
                    (by show s0.ptr + 1 ≤ lex.stream.source.length; omega)
                  · show (readWhile (fun ch => Grammar.Operators.contains ch) s0).2.ptr =
                      s0.ptr + (String.mk
                        (readWhile (fun ch => Grammar.Operators.contains ch) s0).1).length
                    rw [stringMk_length]
                    exact hptr
                  · show 1 ≤ (String.mk
                      (readWhile (fun ch => Grammar.Operators.contains ch) s0).1).length
                    rw [stringMk_length]
                    omega
                · next hop =>
                  unfold coreEos at hE
                  split at hE
                  · next heos =>
                    -- end-of-statement token
                    injection hE with hE1 hE2
                    injection hE1 with hE1
                    subst hE1
                    subst hE2
                    exact spanSpec_one _ _ _ (Or.inr (Or.inl rfl)) rfl rfl
                      (by show s0.ptr < lex.stream.source.length; omega)
                  · next heos =>
                    unfold coreSpecial at hE
                    split at hE
                    · next hpunct =>
                      -- special token
                      injection hE with hE1 hE2
                      injection hE1 with hE1
                      subst hE1
                      subst hE2
                      exact spanSpec_one _ _ _ (Or.inl rfl) rfl rfl
                        (by show s0.ptr < lex.stream.source.length; omega)
                    · next hpunct =>
                      -- bareword literal
                      injection hE with hE1 hE2
                      injection hE1 with hE1
                      subst hE1
                      subst hE2
                      show spanSpec (readLiteralString { lex with stream := s0 }).1
                        (readLiteralString { lex with stream := s0 }).2.ptr _
                      have hcget : s0.source.get? s0.ptr =
                          some (s0.source.get ⟨s0.ptr, h⟩) := List.get?_eq_get h
                      have hwsf : isWhitespaceChar (s0.source.get ⟨s0.ptr, h⟩) = false := by
                        by_cases hp : lex.options.ParseWhitespaceAsTokens = true
                        · simp only [hp, Bool.true_and] at hws
                          simpa using hws
                        · exact hskip (by simpa using hp) _ hcget
                      have hsemi : s0.source.get ⟨s0.ptr, h⟩ ≠ ';' :=
                        fun hcEq => heos (by rw [hcEq]; decide)
                      have hnl : s0.source.get ⟨s0.ptr, h⟩ ≠ '\n' :=
                        fun hcEq => heos (by rw [hcEq]; decide)
                      have hdq : s0.source.get ⟨s0.ptr, h⟩ ≠ '"' :=
                        fun hcEq => hq (Or.inl hcEq)
                      have hsq : s0.source.get ⟨s0.ptr, h⟩ ≠ '\'' :=
                        fun hcEq => hq (Or.inr hcEq)
                      have hspf : isSpecialChar (s0.source.get ⟨s0.ptr, h⟩) = false := by
                        simpa [isSpecialChar] using hpunct
                      have hlit : litCond (s0.source.get ⟨s0.ptr, h⟩) = true := by
                        simp only [litCond, isNotEndOfStatementChar, Bool.and_eq_true,
                          bne_iff_ne, Bool.not_eq_true']
                        exact ⟨⟨⟨⟨⟨⟨hnl, hsemi⟩, hwsf⟩, hspf⟩, hdq⟩, hsq⟩, hnl⟩
                      obtain ⟨hk, hqs, hstart, hend, hge, hple, _⟩ :=
                        readLiteralString_spec { lex with stream := s0 } h hlit
                      have he1 : ({ lex with stream := s0 } : ZrLexer).stream.ptr = s0.ptr := rfl
                      have he2 : ({ lex with stream := s0 } : ZrLexer).stream.source.length =
                        s0.source.length := rfl
                      refine spanSpec_of_scan _ _ _ ?_ hqs (by omega) (by omega) (by omega)
                      · rcases hk with hk|hk|hk|hk
                        · exact Or.inr (Or.inl hk)
                        · exact Or.inr (Or.inr (Or.inl hk))
                        · exact Or.inr (Or.inr (Or.inr (Or.inl hk)))
                        · exact Or.inr (Or.inr (Or.inr (Or.inr (Or.inr hk))))
  · next hend =>
    simp at hE

/-- Span facts for every token produced by a `readNext` step, at any fuel:
the bounds `endPos ≤ |source|`, `startPos ≤ endPos + 1` (with equality only
for an `Option` token with empty name), and the per-kind relation between
`endPos` and the stream pointer after the scan. -/
theorem readNextF_spec (fuel : Nat) (lex : ZrLexer) (t : Token)
    (ht : (readNextF fuel lex).1 = some t)
    (hlen : lex.stream.ptr ≤ lex.stream.source.length) :
    spanSpec t (readNextF fuel lex).2.stream.ptr lex.stream.source.length := by
  induction fuel generalizing lex t with
  | zero => exact absurd ht (by simp [readNextF])
  | succ n ih =>
    show spanSpec t (readNextCore (readNextF n) lex
      (if lex.options.ParseWhitespaceAsTokens then lex.stream
       else (readWhile isWhitespaceChar lex.stream).2)).2.stream.ptr lex.stream.source.length
    refine readNextCore_spec (readNextF n) lex _ t ?_ ?_ ?_ ht
    · split
      · rfl
      · exact readWhile_source ..
    · intro hp c hc
      rw [if_neg (by simp [hp])] at hc
      rw [readWhile_source] at hc
      exact readWhile_stop isWhitespaceChar lex.stream c hc
    · intro lex' t' hs' hp' ht'
      have hmain := ih lex' t' ht' (by rw [hs']; exact hp')
      rw [hs'] at hmain
      exact hmain

/-! ## The `prevSkipWhitespace` loop and the `:` label retrofit -/

theorem prevSkipWsIdx_spec (toks : List Token) (i j : Nat)
    (hj : prevSkipWsIdx toks i = some j) :
    1 ≤ j ∧ j ≤ i ∧
    (∃ tk, toks.get? j = some tk ∧ tk.kind ≠ ZrTokenKind.Whitespace) ∧
    (∀ k tk, j < k → k ≤ i → toks.get? k = some tk → tk.kind = ZrTokenKind.Whitespace) := by
  induction i with
  | zero => simp [prevSkipWsIdx] at hj
  | succ n ih =>
    simp only [prevSkipWsIdx] at hj
    split at hj
    · next tk hg =>
      split at hj
      · next hw =>
        obtain ⟨h1, h2, h3, h4⟩ := ih hj
        refine ⟨h1, by omega, h3, ?_⟩
        intro k tk' hk1 hk2 hgk
        by_cases hkn : k = n + 1
        · subst hkn
          rw [hg] at hgk
          injection hgk with hgk
          rw [← hgk]
          exact hw
        · exact h4 k tk' hk1 (by omega) hgk
      · next hw =>
        injection hj with hj
        subst hj
        refine ⟨by omega, Nat.le_refl _, ⟨tk, hg, hw⟩, ?_⟩
        intro k tk' hk1 hk2 hgk
        omega
    · next hg =>
      obtain ⟨h1, h2, h3, h4⟩ := ih hj
      refine ⟨h1, by omega, h3, ?_⟩
      intro k tk' hk1 hk2 hgk
      by_cases hkn : k = n + 1
      · subst hkn
        rw [hg] at hgk
        exact absurd hgk (by simp)
      · exact h4 k tk' hk1 (by omega) hgk

/-- Scanning a `:` with a non-whitespace token at some history index `≥ 1`
emits the `:` Special token and or-s the `Label` flag into that token —
the nearest non-whitespace one among indices `1 .. size-1` (`index 0 is
never inspected by the lookback loop`). -/
theorem label_flag_retrofit (n : Nat) (lex : ZrLexer) (j : Nat)
    (hpk : lex.stream.peek = some ':')
    (hj : prevSkipWsIdx lex.previousTokens (lex.previousTokens.length - 1) = some j) :
    ((readNextF (n + 1) lex).1.map Token.kind = some ZrTokenKind.Special) ∧
    ((readNextF (n + 1) lex).1.map Token.value = some ":") ∧
    ((readNextF (n + 1) lex).2.previousTokens.get? j =
      (lex.previousTokens.get? j).map
        (fun tk => { tk with flags := tk.flags ||| flagLabel })) ∧
    1 ≤ j ∧
    (∀ tk, lex.previousTokens.get? j = some tk → tk.kind ≠ ZrTokenKind.Whitespace) ∧
    (∀ k tk, j < k → lex.previousTokens.get? k = some tk →
      tk.kind = ZrTokenKind.Whitespace) := by
  have hlt : lex.stream.ptr < lex.stream.source.length := by
    by_contra hge
    unfold ZrTextStream.peek at hpk
    rw [List.get?_eq_none.mpr (by omega)] at hpk
    exact absurd hpk (by simp)
  have hchar : lex.stream.source.get ⟨lex.stream.ptr, hlt⟩ = ':' := by
    unfold ZrTextStream.peek at hpk
    rw [List.get?_eq_get hlt] at hpk
    exact Option.some_injective _ hpk
  have hs0 : (if lex.options.ParseWhitespaceAsTokens then lex.stream
      else (readWhile isWhitespaceChar lex.stream).2) = lex.stream := by
    split
    · rfl
    · exact congrArg Prod.snd (readWhile_head_false isWhitespaceChar lex.stream ':' hpk
        (by decide))
  obtain ⟨h1, h2, ⟨tkj, hgj, hnw⟩, h4⟩ := prevSkipWsIdx_spec _ _ _ hj
  have hEq : readNextF (n + 1) lex =
      (some { kind := ZrTokenKind.Special, startPos := lex.stream.getPtr,
              endPos := lex.stream.getPtr, flags := 0, value := String.mk [':'] },
       { lex with
           stream := { lex.stream with ptr := lex.stream.ptr + 1 },
           previousTokens := setLabelFlag lex.previousTokens }) := by
    show readNextCore (readNextF n) lex
      (if lex.options.ParseWhitespaceAsTokens then lex.stream
       else (readWhile isWhitespaceChar lex.stream).2) = _
    rw [hs0]
    unfold readNextCore
    rw [dif_pos hlt, hchar]
    unfold coreWs coreHash coreDollar coreQuote coreDash coreNum coreOp coreEos coreSpecial
    rw [if_neg (by simp [isWhitespaceChar, luaIsSpace]),
      if_neg (by decide), if_neg (by decide), if_neg (by decide),
      if_neg (fun hcon => absurd hcon.1 (by decide)),
      if_neg (by decide), if_neg (by decide), if_neg (by decide),
      if_pos (by decide), if_pos rfl]
  rw [hEq]
  refine ⟨rfl, rfl, ?_, h1, ?_, ?_⟩
  · show (setLabelFlag lex.previousTokens).get? j = _
    unfold setLabelFlag
    simp only [hj, hgj]
    rw [List.get?_set_eq]
    rw [hgj]
    rfl
  · intro tk hgtk
    rw [hgj] at hgtk
    injection hgtk with hgtk
    rw [← hgtk]
    exact hnw
  · intro k tk hk1 hgk
    have hklen : k < lex.previousTokens.length := by
      by_contra hcon
      rw [List.get?_eq_none.mpr (by omega)] at hgk
      exact absurd hgk (by simp)
    exact h4 k tk hk1 (by omega) hgk

/-! ## Claim theorems about the lexer -/

/-- C1 (amended): for every token emitted by a `readNext` step, the
per-kind span relation holds: bareword (`String` without quotes),
`Keyword`, `Boolean`, `Identifier`, `PropertyAccess`, `Option` and
`Number` tokens have `endPos = ptr − 1` after the scan; quoted `String` /
`InterpolatedString` tokens and `Comment` tokens have `endPos = ptr`;
`Special` / `EndOfStatement` / `Whitespace` tokens span the single
consumed character; and an `Operator` token always has
`endPos = startPos + 1` while the pointer after the scan is
`startPos + |value|`, so the operator span covers the consumed maximal
run exactly when the run has length 2 — not in general. -/
theorem token_spans_by_kind (fuel : Nat) (lex : ZrLexer) (t : Token)
    (ht : (readNextF fuel lex).1 = some t)
    (hlen : lex.stream.ptr ≤ lex.stream.source.length) :
    ((t.kind = ZrTokenKind.Number ∨ t.kind = ZrTokenKind.Keyword ∨
        t.kind = ZrTokenKind.Boolean ∨ t.kind = ZrTokenKind.Identifier ∨
        t.kind = ZrTokenKind.PropertyAccess ∨ t.kind = ZrTokenKind.Option ∨
        (t.kind = ZrTokenKind.String ∧ t.quotes = none)) →
      t.endPos + 1 = (readNextF fuel lex).2.stream.ptr) ∧
    (((t.kind = ZrTokenKind.String ∨ t.kind = ZrTokenKind.InterpolatedString) ∧
        t.quotes ≠ none ∨ t.kind = ZrTokenKind.Comment) →
      t.endPos = (readNextF fuel lex).2.stream.ptr) ∧
    (t.kind = ZrTokenKind.Operator →
      t.endPos = t.startPos + 1 ∧
      (readNextF fuel lex).2.stream.ptr = t.startPos + t.value.length ∧
      1 ≤ t.value.length) ∧
    ((t.kind = ZrTokenKind.Special ∨ t.kind = ZrTokenKind.EndOfStatement ∨
        t.kind = ZrTokenKind.Whitespace) →
      t.endPos = t.startPos ∧ (readNextF fuel lex).2.stream.ptr = t.startPos + 1) := by
  obtain ⟨_, _, _, h4, h5, h6, h7, _⟩ := readNextF_spec fuel lex t ht hlen
  exact ⟨h4, h5, h6, h7⟩

/-- C4 (amended): every token emitted by a `readNext` step satisfies
`0 ≤ startPos`, `endPos ≤ |source|` and `startPos ≤ endPos + 1`;
`startPos ≤ endPos` holds for every token except an `Option` token with
empty option name (input ending right after `--`), whose span degenerates
to `startPos = endPos + 1`. -/
theorem token_span_bounds (fuel : Nat) (lex : ZrLexer) (t : Token)
    (ht : (readNextF fuel lex).1 = some t)
    (hlen : lex.stream.ptr ≤ lex.stream.source.length) :
    t.endPos ≤ lex.stream.source.length ∧
    t.startPos ≤ t.endPos + 1 ∧
    (t.startPos ≤ t.endPos ∨ (t.kind = ZrTokenKind.Option ∧ t.value = "")) := by
  obtain ⟨h1, h2, h3, _⟩ := readNextF_spec fuel lex t ht hlen
  exact ⟨h1, h2, h3⟩

/-- C8: every `InterpolatedString` token emitted by a `readNext` step
satisfies `|variables| ≤ |values| ≤ |variables| + 1`. -/
theorem interpolated_chunk_counts (fuel : Nat) (lex : ZrLexer) (t : Token)
    (ht : (readNextF fuel lex).1 = some t)
    (hlen : lex.stream.ptr ≤ lex.stream.source.length)
    (hk : t.kind = ZrTokenKind.InterpolatedString) :
    t.varNames.length ≤ t.values.length ∧
    t.values.length ≤ t.varNames.length + 1 := by
  obtain ⟨_, _, _, _, _, _, _, h8⟩ := readNextF_spec fuel lex t ht hlen
  exact h8 hk

/-- C6 (amended): a bareword scanned while the token two places back in
the emitted history is the `function` keyword (which requires a token —
for instance a `Whitespace` token under `ParseWhitespaceAsTokens` — in
between) is emitted as an `Identifier` carrying the `FunctionName` flag;
the lookback is `prev(2)`, never `prev(1)`. -/
theorem bareword_after_function_keyword (lex : ZrLexer) (pt : Token)
    (hprev : zrPrev lex 2 = some pt)
    (hkw : pt.kind = ZrTokenKind.Keyword)
    (hval : pt.value = "function")
    (hnk : isKeywordStr (String.mk (readWhile litCond lex.stream).1) = false)
    (hnb : Grammar.BooleanLiterals.contains
      (String.mk (readWhile litCond lex.stream).1) = false) :
    (readLiteralString lex).1.kind = ZrTokenKind.Identifier ∧
    (readLiteralString lex).1.flags = flagFunctionName ∧
    (readLiteralString lex).1.value = String.mk (readWhile litCond lex.stream).1 := by
  simp only [readLiteralString, hprev]
  rw [if_neg (by simp [hnk]), if_neg (by simpa using hnb), if_pos ⟨hkw, hval⟩]
  exact ⟨rfl, rfl, rfl⟩

/-- C9 (amended): a quoted-string scan sets the `UnterminatedString` flag
exactly when the long-string scan ended without finding the closing quote,
in which case the stream is at end of input; a `String` token records the
scan's `closed` boolean in its `closed` field, while an
`InterpolatedString` token carries no `closed` field at all (`none`). -/
theorem string_unterminated_flags (q : Char) (s : ZrTextStream) :
    ((readStringToken q s).1.flags &&& flagUnterminatedString ≠ 0 ↔
      (parseLongString q s).1.2.2 = false) ∧
    ((readStringToken q s).1.kind = ZrTokenKind.String →
      (readStringToken q s).1.closed = some (parseLongString q s).1.2.2) ∧
    ((readStringToken q s).1.kind = ZrTokenKind.InterpolatedString →
      (readStringToken q s).1.closed = none) ∧
    ((parseLongString q s).1.2.2 = false →
      (readStringToken q s).2.hasNext = false) := by
  obtain ⟨_, _, _, _, hstream⟩ := readStringToken_fields q s
  refine ⟨?_, ?_, ?_, ?_⟩
  · simp only [readStringToken]
    split
    · by_cases hc : (parseLongString q s).1.2.2 = true
      · simp +decide [hc, flagUnterminatedString]
      · simp +decide [hc, flagUnterminatedString]
    · by_cases hc : (parseLongString q s).1.2.2 = true
      · simp +decide [hc, flagUnterminatedString, flagInterpolated]
      · simp +decide [hc, flagUnterminatedString, flagInterpolated]
  · simp only [readStringToken]
    split
    · intro _
      rfl
    · intro hk
      simp at hk
  · simp only [readStringToken]
    split
    · intro hk
      simp at hk
    · intro _
      rfl
  · intro hcf
    have hle := parseLongString_closed_eof q s hcf
    have hsrc2 := parseLongString_source q s
    rw [hstream]
    simp only [ZrTextStream.hasNext, decide_eq_false_iff_not]
    rw [hsrc2]
    omega

/-- C10: `hasNext()` can be `true` while `next()` and `peek()` deliver no
token — on a remainder made of whitespace only (`" "`) and on a remainder
that is a comment only, under the default options (`"#c"`). -/
theorem hasNext_without_token :
    (ZrLexer.hasNext (mkLexer " ") = true ∧ (ZrLexer.next (mkLexer " ")).1 = none ∧
      (ZrLexer.peek (mkLexer " ")).1 = none) ∧
    (ZrLexer.hasNext (mkLexer "#c") = true ∧ (ZrLexer.next (mkLexer "#c")).1 = none ∧
      (ZrLexer.peek (mkLexer "#c")).1 = none) := by
  decide

/-! ## AST nodes (src/src/Nodes/NodeTypes.ts, factories and utilities of
src/unnamed/part_001)

Nodes hold `parent` back-references, so the tree is modelled as an arena:
node ids are indices into a list, `parent`/`children`/`values`/
`statements`/`expression` store ids.  A field that a node variant does not
have is `none`/`[]` (TS `undefined`).  `NodeBase` declares `startPos` and
`endPos`; no variant declares a field `pos`, but `offsetNodePosition`
reads and writes `node.pos`, so the model carries `pos` as a field that no
factory ever sets. -/

inductive ZrNodeKind
  | Source
  | Block
  | CommandStatement
  | CommandName
  | String
  | Number
  | Boolean
  | Identifier
  | OperatorToken
  | PrefixToken
  | PrefixExpression
  | EndOfStatement
  | OptionKey
  | OptionExpression
  | VariableDeclaration
  | VariableStatement
  | BinaryExpression
  | UnaryExpression
  | InterpolatedString
  | ArrayLiteralExpression
  | ObjectLiteralExpression
  | PropertyAssignment
  | PropertyAccessExpression
  | ArrayIndexExpression
  | ParenthesizedExpression
  | InnerExpression
  | IfStatement
  | ForInStatement
  | FunctionDeclaration
  | Parameter
  | TypeReference
  | Invalid
deriving DecidableEq, Repr

structure ZrNode where
  kind : ZrNodeKind
  parent : Option Nat := none
  pos : Option Int := none
  startPos : Option Int := none
  endPos : Option Int := none
  flags : Nat := 0
  children : Option (List Nat) := none
  values : Option (List Nat) := none
  statements : Option (List Nat) := none
  expression : Option Nat := none
  command : Option Nat := none
  left : Option Nat := none
  right : Option Nat := none
  text : String := ""
  operatorStr : String := ""
deriving DecidableEq, Repr

abbrev Arena := List ZrNode

def setNodeParent (a : Arena) (childId parentId : Nat) : Arena :=
  match a.get? childId with
  | some n => a.set childId { n with parent := some parentId }
  | none => a

def setParents (a : Arena) (cs : List Nat) (p : Nat) : Arena :=
  cs.foldl (fun acc c => setNodeParent acc c p) a

/-- `createCommandStatement(command, children, startPos?, endPos?)`: builds
the node and wires `child.parent = statement` for every element of
`children` (the `command` child is not wired). -/
def createCommandStatement (a : Arena) (command : Nat) (children : List Nat)
    (startPos endPos : Option Int) : Arena × Nat :=
  let newId := a.length
  let node : ZrNode :=
    { kind := ZrNodeKind.CommandStatement, command := some command,
      children := some children, flags := 0, startPos := startPos, endPos := endPos }
  (setParents (a ++ [node]) children newId, newId)

/-- `createCommandSource(children)`: wires `child.parent` for every child. -/
def createCommandSource (a : Arena) (children : List Nat) : Arena × Nat :=
  let newId := a.length
  let node : ZrNode := { kind := ZrNodeKind.Source, children := some children, flags := 0 }
  (setParents (a ++ [node]) children newId, newId)

/-- `createInterpolatedString(...values)`: wires `value.parent` for every
element of `values`. -/
def createInterpolatedString (a : Arena) (values : List Nat) : Arena × Nat :=
  let newId := a.length
  let node : ZrNode :=
    { kind := ZrNodeKind.InterpolatedString, values := some values, flags := 0 }
  (setParents (a ++ [node]) values newId, newId)

/-- `createArrayLiteral(values)`: builds the node and returns — no parent
wiring at all. -/
def createArrayLiteral (a : Arena) (values : List Nat) : Arena × Nat :=
  (a ++ [{ kind := ZrNodeKind.ArrayLiteralExpression, flags := 0, values := some values }],
   a.length)

/-- `createBinaryExpression(left, op, right, startPos?, endPos?)`: children
are `[left, right]` and both get their parent wired. -/
def createBinaryExpression (a : Arena) (left : Nat) (op : String) (right : Nat)
    (startPos endPos : Option Int) : Arena × Nat :=
  let newId := a.length
  let node : ZrNode :=
    { kind := ZrNodeKind.BinaryExpression, left := some left,
      operatorStr := op, right := some right, children := some [left, right], flags := 0,
      startPos := startPos, endPos := endPos }
  (setParents (a ++ [node]) [left, right] newId, newId)

/-- `createUnaryExpression(op, expression, startPos?, endPos?)`: the code
executes `expr.parent = expression`, i.e. it sets the parent of the NEW
node to the passed child, and leaves the child's parent untouched. -/
def createUnaryExpression (a : Arena) (op : String) (expressionId : Nat)
    (startPos endPos : Option Int) : Arena × Nat :=
  let newId := a.length
  let node : ZrNode :=
    { kind := ZrNodeKind.UnaryExpression,
      expression := some expressionId, operatorStr := op, flags := 0,
      startPos := startPos, endPos := endPos }
  (setNodeParent (a ++ [node]) newId expressionId, newId)

/-- `offsetNodePosition(node, offset)`: when both `node.pos` and
`node.endPos` are set, adds `offset` to them; then recurses into
`children`, else `values`, else `expression`.  Fuel bounds the recursion
depth (child ids in factory-built arenas are smaller than their parents,
so `a.length` fuel always suffices there). -/
def offsetNodePositionF : Nat → Arena → Nat → Int → Arena
  | 0, a, _, _ => a
  | Nat.succ fuel, a, id, off =>
    match a.get? id with
    | none => a
    | some n =>
      let a1 := if n.pos.isSome && n.endPos.isSome then
          a.set id { n with pos := n.pos.map (· + off), endPos := n.endPos.map (· + off) }
        else a
      match n.children with
      | some cs => cs.foldl (fun acc c => offsetNodePositionF fuel acc c off) a1
      | none =>
        match n.values with
        | some vs => vs.foldl (fun acc v => offsetNodePositionF fuel acc v off) a1
        | none =>
          match n.expression with
          | some e => offsetNodePositionF fuel a1 e off
          | none => a1

def isParentNode (n : ZrNode) : Bool := n.children.isSome

/-- TS `Array.prototype.indexOf`: first index of `x`, or `-1`. -/
def indexOfIAux (x : Nat) : List Nat → Nat → Int
  | [], _ => -1
  | y :: ys, i => if y = x then (i : Int) else indexOfIAux x ys (i + 1)

def indexOfI (l : List Nat) (x : Nat) : Int := indexOfIAux x l 0

/-- TS `array[i]` for an `Int` index: `undefined` when negative. -/
def getIdI (l : List Nat) (i : Int) : Option Nat :=
  if i < 0 then none else l.get? i.toNat

/-- `getNextNode(node)`: follow the parent back-link; when the parent is a
parent node (has `children`), return `children[indexOf(node) + 1]`. -/
def getNextNode (a : Arena) (id : Nat) : Option Nat :=
  match a.get? id with
  | none => none
  | some n =>
    match n.parent with
    | none => none
    | some p =>
      match a.get? p with
      | none => none
      | some pn =>
        if isParentNode pn then
          getIdI (pn.children.getD []) (indexOfI (pn.children.getD []) id + 1)
        else none

/-- `getPreviousNode(node)`: as `getNextNode`, with `indexOf(node) - 1`. -/
def getPreviousNode (a : Arena) (id : Nat) : Option Nat :=
  match a.get? id with
  | none => none
  | some n =>
    match n.parent with
    | none => none
    | some p =>
      match a.get? p with
      | none => none
      | some pn =>
        if isParentNode pn then
          getIdI (pn.children.getD []) (indexOfI (pn.children.getD []) id - 1)
        else none

/-! ## Lemmas about parent wiring -/

theorem setNodeParent_length (a : Arena) (c p : Nat) :
    (setNodeParent a c p).length = a.length := by
  unfold setNodeParent
  split
  · exact List.length_set ..
  · rfl

theorem setNodeParent_get_ne (a : Arena) (c p d : Nat) (h : c ≠ d) :
    (setNodeParent a c p).get? d = a.get? d := by
  unfold setNodeParent
  split
  · exact List.get?_set_ne _ _ h
  · rfl

theorem setNodeParent_get_eq (a : Arena) (c p : Nat) (hc : c < a.length) :
    (setNodeParent a c p).get? c =
      (a.get? c).map (fun n => { n with parent := some p }) := by
  unfold setNodeParent
  cases hg : a.get? c with
  | none =>
    rw [List.get?_eq_none] at hg
    omega
  | some n =>
    simp only [hg]
    rw [List.get?_set_eq]
    rw [hg]
    rfl

theorem setParents_length (a : Arena) (cs : List Nat) (p : Nat) :
    (setParents a cs p).length = a.length := by
  induction cs generalizing a with
  | nil => rfl
  | cons c cs ih =>
    show (setParents (setNodeParent a c p) cs p).length = a.length
    rw [ih, setNodeParent_length]

theorem setParents_get_not_mem (a : Arena) (cs : List Nat) (p d : Nat) (hd : d ∉ cs) :
    (setParents a cs p).get? d = a.get? d := by
  induction cs generalizing a with
  | nil => rfl
  | cons c cs ih =>
    show (setParents (setNodeParent a c p) cs p).get? d = a.get? d
    rw [ih _ (fun hm => hd (List.mem_cons_of_mem _ hm)),
      setNodeParent_get_ne _ _ _ _
        (fun he => hd (by rw [← he]; exact List.mem_cons_self _ _))]

theorem setParents_get_mem (a : Arena) (cs : List Nat) (p c : Nat)
    (hm : c ∈ cs) (hc : c < a.length) :
    (setParents a cs p).get? c =
      (a.get? c).map (fun n => { n with parent := some p }) := by
  induction cs generalizing a with
  | nil => cases hm
  | cons d cs ih =>
    show (setParents (setNodeParent a d p) cs p).get? c = _
    by_cases hmem : c ∈ cs
    · rw [ih _ hmem (by rw [setNodeParent_length]; exact hc)]
      by_cases hdc : d = c
      · subst hdc
        rw [setNodeParent_get_eq _ _ _ hc]
        cases a.get? d with
        | none => rfl
        | some n => rfl
      · rw [setNodeParent_get_ne _ _ _ _ hdc]
    · have hdc : d = c := by
        rcases List.mem_cons.mp hm with h | h
        · exact h.symm
        · exact absurd h hmem
      subst hdc
      rw [setParents_get_not_mem _ _ _ _ hmem]
      exact setNodeParent_get_eq _ _ _ hc

/-- C3 (amended): `createCommandStatement`, `createCommandSource`,
`createInterpolatedString` and `createBinaryExpression` set the parent
field of every element of their `children` / `values` array to the newly
constructed node.  (`createArrayLiteral` does not touch its values'
parents, and `createUnaryExpression` sets the new node's own parent to
the passed child instead — see the counterexample.) -/
theorem factories_wire_child_parents :
    (∀ (a : Arena) (cmd : Nat) (cs : List Nat) (sp ep : Option Int) (c : Nat),
      c ∈ cs → c < a.length →
      (createCommandStatement a cmd cs sp ep).1.get? c =
        (a.get? c).map
          (fun n => { n with parent := some (createCommandStatement a cmd cs sp ep).2 })) ∧
    (∀ (a : Arena) (cs : List Nat) (c : Nat), c ∈ cs → c < a.length →
      (createCommandSource a cs).1.get? c =
        (a.get? c).map (fun n => { n with parent := some (createCommandSource a cs).2 })) ∧
    (∀ (a : Arena) (vs : List Nat) (v : Nat), v ∈ vs → v < a.length →
      (createInterpolatedString a vs).1.get? v =
        (a.get? v).map
          (fun n => { n with parent := some (createInterpolatedString a vs).2 })) ∧
    (∀ (a : Arena) (l : Nat) (op : String) (r : Nat) (sp ep : Option Int) (c : Nat),
      c = l ∨ c = r → c < a.length →
      (createBinaryExpression a l op r sp ep).1.get? c =
        (a.get? c).map
          (fun n => { n with parent := some (createBinaryExpression a l op r sp ep).2 })) := by
  refine ⟨?_, ?_, ?_, ?_⟩
  · intro a cmd cs sp ep c hm hc
    simp only [createCommandStatement]
    rw [setParents_get_mem _ _ _ _ hm (by rw [List.length_append]; simp; omega)]
    rw [List.get?_append hc]
  · intro a cs c hm hc
    simp only [createCommandSource]
    rw [setParents_get_mem _ _ _ _ hm (by rw [List.length_append]; simp; omega)]
    rw [List.get?_append hc]
  · intro a vs v hm hv
    simp only [createInterpolatedString]
    rw [setParents_get_mem _ _ _ _ hm (by rw [List.length_append]; simp; omega)]
    rw [List.get?_append hv]
  · intro a l op r sp ep c hor hc
    have hm : c ∈ [l, r] := by rcases hor with rfl | rfl <;> simp
    simp only [createBinaryExpression]
    rw [setParents_get_mem _ _ _ _ hm (by rw [List.length_append]; simp; omega)]
    rw [List.get?_append hc]

/-- C2: `offsetNodePosition` tests and mutates the field `pos`, which no
node variant carries (`NodeBase` declares `startPos`), so on any arena
whose nodes all have `pos` unset — in particular every factory-built
arena — the walk changes nothing: `startPos` and `endPos` are never
offset, contradicting the documented behaviour. -/
theorem offsetNodePosition_noop (fuel : Nat) (a : Arena) (id : Nat) (off : Int)
    (hpos : ∀ n ∈ a, n.pos = none) :
    offsetNodePositionF fuel a id off = a := by
  induction fuel generalizing a id with
  | zero => rfl
  | succ m ih =>
    unfold offsetNodePositionF
    cases hg : a.get? id with
    | none => simp only [hg]
    | some n =>
      simp only [hg]
      have hp : n.pos = none := hpos n (List.get?_mem hg)
      simp only [hp, Option.isSome_none, Bool.false_and, Bool.false_eq_true, if_false]
      have hfold : ∀ (l : List Nat),
          l.foldl (fun acc c => offsetNodePositionF m acc c off) a = a := by
        intro l
        induction l with
        | nil => rfl
        | cons c l ihl =>
          show List.foldl _ (offsetNodePositionF m a c off) l = a
          rw [ih a c hpos]
          exact ihl
      cases n.children with
      | some cs => exact hfold cs
      | none =>
        cases n.values with
        | some vs => exact hfold vs
        | none =>
          cases n.expression with
          | some e => exact ih a e hpos
          | none => rfl

/-! ## Sibling navigation -/

theorem indexOfIAux_spec (x : Nat) (l : List Nat) (i k : Nat)
    (hk : l.get? k = some x) (hfirst : ∀ j, j < k → l.get? j ≠ some x) :
    indexOfIAux x l i = (i : Int) + (k : Int) := by
  induction l generalizing i k with
  | nil => simp at hk
  | cons y ys ih =>
    cases k with
    | zero =>
      have hy : y = x := by simpa using hk
      unfold indexOfIAux
      rw [if_pos hy]
      simp
    | succ m =>
      have hy : ¬(y = x) := by
        have := hfirst 0 (by omega)
        simpa using this
      unfold indexOfIAux
      rw [if_neg hy]
      have hrec := ih (i + 1) m (by simpa using hk) (fun j hj => by
        have := hfirst (j + 1) (by omega)
        simpa using this)
      rw [hrec]
      push_cast
      ring

/-- C7 (amended): sibling navigation follows the parent back-link only
through a `children` array: when `node.parent` refers back to a node whose
`children` contain `node` first at index `i`, `getNextNode` returns the
sibling at `i + 1` (none at the last index) and `getPreviousNode` the
sibling at `i - 1` (none at index 0).  A parent holding the node in
`values` or `statements` is not a `ParentNode` for these functions. -/
theorem sibling_navigation_children (a : Arena) (id : Nat) (n : ZrNode) (p : Nat)
    (pn : ZrNode) (cs : List Nat) (i : Nat)
    (hid : a.get? id = some n)
    (hpar : n.parent = some p)
    (hp : a.get? p = some pn)
    (hcs : pn.children = some cs)
    (hi : cs.get? i = some id)
    (hfirst : ∀ j, j < i → cs.get? j ≠ some id) :
    getNextNode a id = cs.get? (i + 1) ∧
    getPreviousNode a id = (if i = 0 then none else cs.get? (i - 1)) := by
  have hidx : indexOfI cs id = (i : Int) := by
    have := indexOfIAux_spec id cs 0 i hi hfirst
    simpa [indexOfI] using this
  constructor
  · unfold getNextNode
    simp only [hid, hpar, hp]
    rw [if_pos (by simp [isParentNode, hcs])]
    simp only [hcs, Option.getD_some]
    rw [hidx]
    unfold getIdI
    rw [if_neg (by omega)]
    have htn : ((i : Int) + 1).toNat = i + 1 := by omega
    rw [htn]
  · unfold getPreviousNode
    simp only [hid, hpar, hp]
    rw [if_pos (by simp [isParentNode, hcs])]
    simp only [hcs, Option.getD_some]
    rw [hidx]
    unfold getIdI
    by_cases hi0 : i = 0
    · subst hi0
      rw [if_pos (by norm_num), if_pos rfl]
    · rw [if_neg (by omega), if_neg hi0]
      congr 1
      omega

/-! ## Concrete inputs: counterexamples and witness instantiations -/

/-- The token `readNext` emits on the source `"="`. -/
def c1Tok : Token :=
  { kind := ZrTokenKind.Operator, value := "=", startPos := 0, endPos := 1 }

/-- Scanning the single operator `"="` yields `endPos = 1` while the
pointer after the scan is `1`: `endPos` is the pointer itself, not
`pointer − 1`, and the span `[0, 1]` is one longer than the consumed run. -/
theorem operator_span_counterexample :
    (readNextF 2 (mkLexer "=")).1.map Token.kind = some ZrTokenKind.Operator ∧
    (readNextF 2 (mkLexer "=")).1.map Token.value = some "=" ∧
    (readNextF 2 (mkLexer "=")).1.map Token.startPos = some 0 ∧
    (readNextF 2 (mkLexer "=")).1.map Token.endPos = some 1 ∧
    (readNextF 2 (mkLexer "=")).2.stream.ptr = 1 := by
  decide

/-- The amended span relations instantiated on the source `"="`. -/
theorem token_spans_by_kind_witness :
    (readNextF 2 (mkLexer "=")).1 = some c1Tok ∧
    (c1Tok.endPos = c1Tok.startPos + 1 ∧
      (readNextF 2 (mkLexer "=")).2.stream.ptr = c1Tok.startPos + c1Tok.value.length ∧
      1 ≤ c1Tok.value.length) := by
  refine ⟨by decide, ?_⟩
  exact (token_spans_by_kind 2 (mkLexer "=") c1Tok (by decide) (by decide)).2.2.1 rfl

/-- The token `readNext` emits on the source `"--"`. -/
def c4Tok : Token :=
  { kind := ZrTokenKind.Option, value := "", startPos := 2, endPos := 1,
    prefixStr := some "--" }

/-- On the source `"--"` the lexer emits an `Option` token with
`startPos = 2 > endPos = 1`: `startPos ≤ endPos` fails. -/
theorem option_span_counterexample :
    (lexTokens "--").map Token.kind = [ZrTokenKind.Option] ∧
    (lexTokens "--").map Token.startPos = [2] ∧
    (lexTokens "--").map Token.endPos = [1] := by
  decide

/-- The amended span bounds instantiated on the source `"--"`. -/
theorem token_span_bounds_witness :
    (readNextF 3 (mkLexer "--")).1 = some c4Tok ∧
    (c4Tok.endPos ≤ (mkLexer "--").stream.source.length ∧
      c4Tok.startPos ≤ c4Tok.endPos + 1 ∧
      (c4Tok.startPos ≤ c4Tok.endPos ∨
        (c4Tok.kind = ZrTokenKind.Option ∧ c4Tok.value = ""))) := by
  refine ⟨by decide, ?_⟩
  exact token_span_bounds 3 (mkLexer "--") c4Tok (by decide) (by decide)

/-- On the source `"a:"` the bareword `a` is emitted at history index 0
and the `:` scan leaves its flags at `0`: the `Label` flag is not set,
because the lookback loop never inspects index 0. -/
theorem label_flag_index_zero_counterexample :
    (nextNTimes 2 (mkLexer "a:")).previousTokens.map Token.kind =
      [ZrTokenKind.String, ZrTokenKind.Special] ∧
    (nextNTimes 2 (mkLexer "a:")).previousTokens.map Token.value = ["a", ":"] ∧
    (nextNTimes 2 (mkLexer "a:")).previousTokens.map Token.flags = [0, 0] := by
  decide

/-- A lexer state about to scan `:` with a non-whitespace token at history
index 1 (so the lookback loop can reach it). -/
def c5Lex : ZrLexer :=
  { stream := { source := "ab:".toList, ptr := 2 },
    previousTokens :=
      [{ kind := ZrTokenKind.String, value := "a" },
       { kind := ZrTokenKind.String, value := "b" }] }

/-- The amended label-retrofit behaviour instantiated on `c5Lex`. -/
theorem label_flag_retrofit_witness :
    (c5Lex.stream.peek = some ':' ∧
      prevSkipWsIdx c5Lex.previousTokens (c5Lex.previousTokens.length - 1) = some 1) ∧
    ((readNextF 1 c5Lex).1.map Token.kind = some ZrTokenKind.Special ∧
      (readNextF 1 c5Lex).1.map Token.value = some ":" ∧
      (readNextF 1 c5Lex).2.previousTokens.get? 1 =
        (c5Lex.previousTokens.get? 1).map
          (fun tk => { tk with flags := tk.flags ||| flagLabel })) := by
  have h := label_flag_retrofit 0 c5Lex 1 (by decide) (by decide)
  exact ⟨⟨by decide, by decide⟩, h.1, h.2.1, h.2.2.1⟩

/-- On the source `"function foo"` (default options) the bareword after
the `function` keyword is emitted as a `String` token with flags `0`, not
as an `Identifier` with the `FunctionName` flag: under default options no
whitespace token separates them in the history, so the `prev(2)` lookback
misses the keyword. -/
theorem function_name_flag_counterexample :
    (lexTokens "function foo").map Token.kind =
      [ZrTokenKind.Keyword, ZrTokenKind.String] ∧
    (lexTokens "function foo").map Token.flags = [0, 0] := by
  decide

/-- A lexer state scanning the bareword `foo` whose history holds the
`function` keyword two places back (with a whitespace token in between,
as `ParseWhitespaceAsTokens` would produce). -/
def c6Lex : ZrLexer :=
  { stream := { source := "foo".toList, ptr := 0 },
    previousTokens :=
      [{ kind := ZrTokenKind.Keyword, value := "function" },
       { kind := ZrTokenKind.Whitespace, value := " " }] }

/-- The amended function-name behaviour instantiated on `c6Lex`. -/
theorem bareword_after_function_keyword_witness :
    (zrPrev c6Lex 2 = some { kind := ZrTokenKind.Keyword, value := "function" }) ∧
    ((readLiteralString c6Lex).1.kind = ZrTokenKind.Identifier ∧
      (readLiteralString c6Lex).1.flags = flagFunctionName ∧
      (readLiteralString c6Lex).1.value = String.mk (readWhile litCond c6Lex.stream).1) := by
  refine ⟨by decide, ?_⟩
  exact bareword_after_function_keyword c6Lex
    { kind := ZrTokenKind.Keyword, value := "function" }
    (by decide) rfl rfl (by decide) (by decide)

/-- The token `readNext` emits on the source `"'a$b'"`. -/
def c8Tok : Token :=
  { kind := ZrTokenKind.InterpolatedString, value := "a$b", startPos := 0, endPos := 5,
    flags := 2, values := ["a"], varNames := ["b"], quotes := some (Char.ofNat 39) }

/-- The chunk-count invariant instantiated on the source `"'a$b'"`
(one variable, one text chunk). -/
theorem interpolated_chunk_counts_witness :
    (readNextF 6 (mkLexer "'a$b'")).1 = some c8Tok ∧
    (c8Tok.varNames.length ≤ c8Tok.values.length ∧
      c8Tok.values.length ≤ c8Tok.varNames.length + 1) := by
  refine ⟨by decide, ?_⟩
  exact interpolated_chunk_counts 6 (mkLexer "'a$b'") c8Tok (by decide) (by decide) rfl

/-- On the unterminated interpolated source `"'a$b"` the emitted token
carries `closed = none` (the TS literal has no `closed` field), not
`closed = false`; the `UnterminatedString` and `Interpolated` flags are
both set (`1 ||| 2 = 3`). -/
theorem interp_closed_counterexample :
    (lexTokens "'a$b").map Token.kind = [ZrTokenKind.InterpolatedString] ∧
    (lexTokens "'a$b").map Token.closed = [none] ∧
    (lexTokens "'a$b").map Token.flags = [3] := by
  decide

/-- The amended unterminated-string behaviour instantiated on the scan of
`"'a$b"` starting at its opening quote. -/
theorem string_unterminated_flags_witness :
    ((readStringToken (Char.ofNat 39) { source := "'a$b".toList, ptr := 0 }).1.flags &&&
        flagUnterminatedString ≠ 0 ↔
      (parseLongString (Char.ofNat 39) { source := "'a$b".toList, ptr := 0 }).1.2.2 = false) ∧
    ((readStringToken (Char.ofNat 39) { source := "'a$b".toList, ptr := 0 }).1.kind =
        ZrTokenKind.InterpolatedString →
      (readStringToken (Char.ofNat 39) { source := "'a$b".toList, ptr := 0 }).1.closed = none) := by
  have h := string_unterminated_flags (Char.ofNat 39) { source := "'a$b".toList, ptr := 0 }
  exact ⟨h.1, h.2.2.1⟩

/-- A one-node arena built like the factories build nodes: `startPos` and
`endPos` set, `pos` absent. -/
def c2Arena : Arena :=
  [{ kind := ZrNodeKind.String, startPos := some 0, endPos := some 3 }]

/-- Offsetting `c2Arena` by 7 changes nothing: the guard reads the absent
`pos` field, so `startPos`/`endPos` keep their values. -/
theorem offsetNodePosition_noop_witness :
    offsetNodePositionF 5 c2Arena 0 7 = c2Arena :=
  offsetNodePosition_noop 5 c2Arena 0 7 (by decide)

/-- Parent wiring of `createCommandSource` instantiated on a one-node
arena with child list `[0]`. -/
theorem factories_wire_child_parents_witness :
    (createCommandSource [{ kind := ZrNodeKind.String }] [0]).1.get? 0 =
      (([{ kind := ZrNodeKind.String }] : Arena).get? 0).map
        (fun n =>
          { n with parent := some (createCommandSource [{ kind := ZrNodeKind.String }] [0]).2 }) := by
  exact factories_wire_child_parents.2.1 [{ kind := ZrNodeKind.String }] [0] 0
    (by decide) (by decide)

/-- `createArrayLiteral` leaves its value's parent unset, and
`createUnaryExpression` sets the NEW node's parent to the passed child id
while the child's parent stays unset. -/
theorem array_unary_parent_counterexample :
    (createArrayLiteral [{ kind := ZrNodeKind.String }] [0]).1.map ZrNode.parent =
      [none, none] ∧
    (createUnaryExpression [{ kind := ZrNodeKind.String }] "!" 0 none none).1.map
      ZrNode.parent = [none, some 0] := by
  decide

/-- Two nodes referenced by their parent's `children`. -/
def c7Arena : Arena :=
  [{ kind := ZrNodeKind.String, parent := some 2 },
   { kind := ZrNodeKind.String, parent := some 2 },
   { kind := ZrNodeKind.CommandStatement, children := some [0, 1] }]

/-- Sibling navigation instantiated on `c7Arena`: node 0 sits at index 0
of its parent's `children`, so its next sibling is node 1 and it has no
previous sibling. -/
theorem sibling_navigation_children_witness :
    getNextNode c7Arena 0 = some 1 ∧ getPreviousNode c7Arena 0 = none := by
  have h := sibling_navigation_children c7Arena 0
    { kind := ZrNodeKind.String, parent := some 2 } 2
    { kind := ZrNodeKind.CommandStatement, children := some [0, 1] } [0, 1] 0
    (by decide) rfl (by decide) rfl (by decide) (by decide)
  exact ⟨h.1, h.2⟩

/-- Two nodes referenced by their parent's `values` (an array literal, as
`createArrayLiteral` builds): `getNextNode`/`getPreviousNode` return
nothing although siblings exist, because the parent has no `children`
field and so is not a `ParentNode`. -/
def c7ValuesArena : Arena :=
  [{ kind := ZrNodeKind.String, parent := some 2 },
   { kind := ZrNodeKind.String, parent := some 2 },
   { kind := ZrNodeKind.ArrayLiteralExpression, values := some [0, 1] }]

/-- Navigation through a `values`-holding parent finds no sibling. -/
theorem values_sibling_counterexample :
    getNextNode c7ValuesArena 0 = none ∧ getPreviousNode c7ValuesArena 1 = none := by
  decide

end Zr
